import Mathlib

/-!
Verification of the AutoRules rule system (src/auto_rules.py): the
MDC markup codec (`convert_rules_to_mdc` / `convert_mdc_to_rules`),
the document-backed rule store (`add_rule`, `update_rule`,
`delete_rule`, `load_rules_by_tags`) and the rule applier described in
the design document.

Python strings are modelled as `List Char`.  The Python string methods
used by the source (`split('\n')`, `'\n'.join`, `strip()`,
`startswith`, `replace`, substring test `in`) are given explicit
executable models (`pySplit`, `pyJoin`, `pyStrip`, `pyStartsWith`,
`pyReplace`, `hasSub`) so that every step of the source can be traced.
`strip()` is modelled with `Char.isWhitespace` (space, tab, CR, LF),
which agrees with Python on the ASCII whitespace appearing in the
format.  Timestamps (`datetime.now()`) and fresh ids (`uuid.uuid4()`)
are abstracted as opaque string parameters, and the persisted file is
modelled by its text content (a missing file behaves as the empty
document, which parses to `[]` exactly as the source returns `[]`).
-/

set_option maxHeartbeats 1600000

namespace AutoRules

/-- Python strings are modelled as lists of characters. -/
abbrev Str := List Char

/-- Whitespace predicate used by the model of Python `str.strip()`. -/
def wsp (c : Char) : Bool := c.isWhitespace

/-- Model of Python `s.split(sep)` for a one-character separator:
`pySplit c s` cuts `s` at every occurrence of `c`; the result is always
non-empty and `pySplit c [] = [[]]`, matching `''.split(sep) == ['']`. -/
def pySplit (c : Char) : Str → List Str
  | [] => [[]]
  | x :: xs =>
    if x = c then [] :: pySplit c xs
    else
      match pySplit c xs with
      | [] => [[x]]
      | l :: ls => (x :: l) :: ls

/-- Model of Python `sep.join(parts)` for a one-character separator. -/
def pyJoin (c : Char) : List Str → Str
  | [] => []
  | [l] => l
  | l :: ls => l ++ c :: pyJoin c ls

/-- Model of Python `s.strip()`: drop whitespace from both ends. -/
def pyStrip (s : Str) : Str :=
  ((s.dropWhile wsp).reverse.dropWhile wsp).reverse

/-- Model of Python `s.startswith(p)`. -/
def pyStartsWith (p s : Str) : Bool := p.isPrefixOf s

/-- Model of Python's substring test `p in s`. -/
def hasSub (pat : Str) : Str → Bool
  | [] => pat.isEmpty
  | c :: cs => pat.isPrefixOf (c :: cs) || hasSub pat cs

/-- Fuelled worker for `pyReplace`; the fuel only serves to make the
recursion structural, `pyReplace` always supplies enough of it. -/
def pyReplaceFuel (pat rep : Str) : Nat → Str → Str
  | _, [] => []
  | 0, s => s
  | fuel + 1, c :: cs =>
    if pat ≠ [] ∧ pat.isPrefixOf (c :: cs) then
      rep ++ pyReplaceFuel pat rep fuel (cs.drop (pat.length - 1))
    else
      c :: pyReplaceFuel pat rep fuel cs

/-- Model of Python `s.replace(pat, rep)` for a non-empty pattern:
replaces every non-overlapping occurrence, scanning left to right. -/
def pyReplace (pat rep s : Str) : Str := pyReplaceFuel pat rep s.length s

/-- A rule record, modelling the Python dicts handled by
`auto_rules.py`.  Each field is optional, mirroring presence or absence
of the corresponding dictionary key (the source only ever uses this
fixed key set); `none` plays the role of a missing key, so that
`rule.get(k)` is the field itself and `rule.get(k, "")` is `getD`. -/
structure RuleDict where
  id : Option Str := none
  name : Option Str := none
  description : Option Str := none
  original_code : Option Str := none
  modified_code : Option Str := none
  feedback : Option Str := none
  tags : Option (List Str) := none
  created_at : Option Str := none
  updated_at : Option Str := none
deriving DecidableEq, Repr

/-- Python truthiness of an optional string: `None` and `""` are falsy. -/
def optTruthy : Option Str → Bool
  | none => false
  | some s => !s.isEmpty

/-- Model of `rule.get(key, "")`. -/
def ruleGet (o : Option Str) : Str := o.getD []

/-- The section text `convert_rules_to_mdc` emits for one rule: header
line from the name, description paragraph, then the two labelled
fenced code blocks (src/auto_rules.py lines 65-79). -/
def ruleSection (r : RuleDict) : Str :=
  "## ".data ++ ruleGet r.name ++ "\n\n".data ++
  ruleGet r.description ++ "\n\n".data ++
  "### 원본 코드\n\n".data ++
  "```\n".data ++ ruleGet r.original_code ++ "\n```\n\n".data ++
  "### 수정된 코드\n\n".data ++
  "```\n".data ++ ruleGet r.modified_code ++ "\n```\n\n".data

/-- `convert_rules_to_mdc` (src/auto_rules.py lines 61-81): the fixed
document title followed by one section per rule, in order. -/
def convert_rules_to_mdc (rules : List RuleDict) : Str :=
  rules.foldl (fun acc r => acc ++ ruleSection r) "# 자동 규칙 모음\n\n".data

/-- The `'## '` marker that begins a section header line. -/
def hdrMark : Str := "## ".data

/-- The original-code sub-header prefix `'### 원본 코드'`. -/
def origHdr : Str := "### 원본 코드".data

/-- The modified-code sub-header prefix `'### 수정된 코드'`. -/
def modHdr : Str := "### 수정된 코드".data

/-- A line opening or closing a fenced block:
Python `lines[i].strip().startswith('```')`. -/
def isFenceLine (l : Str) : Bool := pyStartsWith "```".data (pyStrip l)

/-- One step of the section splitter: a line starting with `'## '`
begins a new section.  Models `re.split(r'(?=^## )', mdc_content,
flags=re.MULTILINE)` at line granularity: the document's lines are
grouped into chunks, a new chunk beginning at every line that starts
with `'## '` (the regex is a zero-width lookahead anchored at line
starts, so it cuts exactly before such lines and keeps them). -/
def splitSectionsStep (l : Str) (acc : List (List Str)) : List (List Str) :=
  match acc with
  | [] => [[l]]
  | c :: cs =>
    if pyStartsWith hdrMark l then [] :: (l :: c) :: cs else (l :: c) :: cs

/-- Group document lines into sections, splitting before each `'## '`
header line; the first chunk is the material before the first header. -/
def splitSections (ls : List Str) : List (List Str) :=
  ls.foldr splitSectionsStep [[]]

/-- The scan used for both code blocks (src/auto_rules.py lines
131-141 and 150-160): skip to the first fence line, skip the fence,
collect lines until the next fence line.  Returns the joined code and
the remaining lines beginning at the closing fence (or `[]` when the
scan ran off the end, which matches the exhausted Python index). -/
def extractFenced (ls : List Str) : Str × List Str :=
  let r := (ls.dropWhile (fun l => !isFenceLine l)).drop 1
  (pyJoin '\n' (r.takeWhile (fun l => !isFenceLine l)),
   r.dropWhile (fun l => !isFenceLine l))

/-- The record `convert_mdc_to_rules` synthesizes for a parsed section
(src/auto_rules.py lines 109-118 with the code fields filled in);
`now` abstracts the two `datetime.now()` calls. -/
def mkParsed (now n d o m : Str) : RuleDict :=
  { id := some ((n.map fun c => if c = ' ' then '_' else c) ++ '_' :: now)
    name := some n
    description := some d
    original_code := some o
    modified_code := some m
    feedback := some "MDC에서 추출".data
    tags := some []
    created_at := some now
    updated_at := none }

/-- The name a section header line yields (src/auto_rules.py line
104): every occurrence of `'## '` is removed, then the line is
stripped. -/
def sectionName (l0 : Str) : Str := pyStrip (pyReplace hdrMark [] l0)

/-- The description of a section (src/auto_rules.py lines 121-126):
the lines before the original-code sub-header, joined and stripped. -/
def sectionDesc (rest : List Str) : Str :=
  pyStrip (pyJoin '\n' (rest.takeWhile fun l => !pyStartsWith origHdr l))

/-- The original-code field and the scan position it leaves behind
(src/auto_rules.py lines 128-141): skip to the original-code
sub-header; when found, extract the following fenced block,
otherwise both the code and the remaining lines are empty. -/
def sectionOrig (rest : List Str) : Str × List Str :=
  match rest.dropWhile fun l => !pyStartsWith origHdr l with
  | [] => (([] : Str), ([] : List Str))
  | _ :: tl => extractFenced tl

/-- The modified-code field (src/auto_rules.py lines 143-160): one
line past the closing fence (line 144), scan to the modified-code
sub-header; when found, extract the following fenced block. -/
def sectionMod (afterOrig : List Str) : Str :=
  match (afterOrig.drop 1).dropWhile fun l => !pyStartsWith modHdr l with
  | [] => ([] : Str)
  | _ :: tl2 => (extractFenced tl2).1

/-- Parse one section, given as its stripped, line-split text
(src/auto_rules.py lines 99-164): extract the name from the header
line, the description up to the original-code sub-header, then the two
fenced blocks; keep the record only if the name is non-empty and at
least one code field is non-empty. -/
def parseSectionLines (now : Str) : List Str → Option RuleDict
  | [] => none
  | l0 :: rest =>
    if (sectionName l0).isEmpty then none
    else
      if !(sectionName l0).isEmpty ∧
          (!(sectionOrig rest).1.isEmpty ∨ !(sectionMod (sectionOrig rest).2).isEmpty) then
        some (mkParsed now (sectionName l0) (sectionDesc rest)
          (sectionOrig rest).1 (sectionMod (sectionOrig rest).2))
      else none

/-- Process one section chunk (its lines): rebuild its text, skip it
when blank (`if not section.strip(): continue`), otherwise strip it,
split it into lines again and parse (src/auto_rules.py lines 96-99). -/
def parseChunk (now : Str) (chunk : List Str) : Option RuleDict :=
  let copy := pyStrip (pyJoin '\n' chunk)
  if copy.isEmpty then none
  else parseSectionLines now (pySplit '\n' copy)

/-- `convert_mdc_to_rules` (src/auto_rules.py lines 84-166): an empty
or blank document parses to `[]`; otherwise the document is split into
sections at `'## '` header lines, the first chunk (the title) is
discarded, and each remaining non-blank section is parsed, collecting
the kept records in order. -/
def convert_mdc_to_rules (now : Str) (mdc : Str) : List RuleDict :=
  if (pyStrip mdc).isEmpty then []
  else
    ((splitSections (pySplit '\n' mdc)).drop 1).foldl
      (fun acc chunk =>
        match parseChunk now chunk with
        | some r => acc ++ [r]
        | none => acc)
      []

/-- `load_all_rules` (src/auto_rules.py lines 200-228): the persisted
document is modelled by its text `doc` (an absent file is the empty
document, and both parse to `[]`). -/
def load_all_rules (now doc : Str) : List RuleDict := convert_mdc_to_rules now doc

/-- Outcome of a store mutation: the success flag and message returned
to the caller, the document content after the operation, and the
record set handed to `save_rules_to_mdc` when a write happened. -/
structure OpResult where
  ok : Bool
  msg : Str
  doc : Str
  written : Option (List RuleDict)
deriving DecidableEq, Repr

/-- `add_rule` (src/auto_rules.py lines 240-274): reject a request
without a (truthy) name; reject a duplicate name before writing;
otherwise assign a fresh id and creation time, append, and persist the
full set via `save_rules_to_mdc`/`convert_rules_to_mdc`.  The
environment-variable precheck is modelled as passed (configuration
resolution is outside the store's contract) and the file write as
succeeding; `fid` abstracts `uuid.uuid4()`. -/
def add_rule (now fid doc : Str) (rule : RuleDict) : OpResult :=
  if !optTruthy rule.name then
    ⟨false, "규칙 이름이 필요합니다.".data, doc, none⟩
  else
    let current := load_all_rules now doc
    if current.any (fun ex => ex.name == rule.name) then
      ⟨false, '\'' :: ruleGet rule.name ++ "' 규칙이 이미 존재합니다.".data, doc, none⟩
    else
      let newRules := current ++ [{ rule with id := some fid, created_at := some now }]
      ⟨true, "규칙 '".data ++ ruleGet rule.name ++ "'이(가) 추가되었습니다.".data,
        convert_rules_to_mdc newRules, some newRules⟩

/-- The match test of the `update_rule` loop (src/auto_rules.py lines
297-298): a stored record matches if the request carries a truthy id
equal to the stored id, or a truthy name equal to the stored name. -/
def ruleMatches (req ex : RuleDict) : Bool :=
  (optTruthy req.id && ex.id == req.id) || (optTruthy req.name && ex.name == req.name)

/-- The replacement record `update_rule` stores (src/auto_rules.py
lines 299-315): the request itself, with the existing record's id and
creation time carried over (fresh ones synthesized when the existing
record lacked them) and the update time set. -/
def mergeRule (ex req : RuleDict) (fid now : Str) : RuleDict :=
  { req with
    id := some (if optTruthy ex.id then ruleGet ex.id else fid)
    created_at := some (if optTruthy ex.created_at then ruleGet ex.created_at else now)
    updated_at := some now }

/-- The `for i, existing_rule in enumerate(...)` loop of `update_rule`
with its `break`: replace the first matching record, `none` if no
record matches. -/
def updateLoop (req : RuleDict) (fid now : Str) : List RuleDict → Option (List RuleDict)
  | [] => none
  | ex :: rest =>
    if ruleMatches req ex then some (mergeRule ex req fid now :: rest)
    else (updateLoop req fid now rest).map (ex :: ·)

/-- The `rule_name or rule_id` string used in `update_rule` messages. -/
def nameOrId (req : RuleDict) : Str :=
  if optTruthy req.name then ruleGet req.name else ruleGet req.id

/-- `update_rule` (src/auto_rules.py lines 276-328): require a truthy
name or id, find the first stored record matching by id-or-name,
replace it by the request (id/created_at carried over, updated_at
set), and persist the full set; fail with the document untouched when
nothing matches. -/
def update_rule (now fid doc : Str) (req : RuleDict) : OpResult :=
  if !optTruthy req.name ∧ !optTruthy req.id then
    ⟨false, "규칙 업데이트를 위해 이름 또는 ID가 필요합니다.".data, doc, none⟩
  else
    let current := load_all_rules now doc
    match updateLoop req fid now current with
    | none =>
      ⟨false, "규칙 '".data ++ nameOrId req ++ "'을(를) 찾을 수 없습니다.".data, doc, none⟩
    | some newRules =>
      ⟨true, "규칙 '".data ++ nameOrId req ++ "'이(가) 업데이트되었습니다.".data,
        convert_rules_to_mdc newRules, some newRules⟩

/-- `delete_rule` (src/auto_rules.py lines 330-355): keep every record
whose name differs from the argument (a record with a missing name is
kept, since in Python `None != rule_name` holds); fail with the
document untouched when nothing was removed, otherwise persist the
filtered set. -/
def delete_rule (now doc : Str) (rule_name : Str) : OpResult :=
  let current := load_all_rules now doc
  let filtered := current.filter (fun r => !(r.name == some rule_name))
  if filtered.length == current.length then
    ⟨false, "규칙 '".data ++ rule_name ++ "'을(를) 찾을 수 없습니다.".data, doc, none⟩
  else
    ⟨true, "규칙 '".data ++ rule_name ++ "'이(가) 삭제되었습니다.".data,
      convert_rules_to_mdc filtered, some filtered⟩

/-- `load_rules_by_tags` (src/auto_rules.py lines 358-370): an empty
tag list returns every stored record; otherwise keep the records whose
tag list contains at least one requested tag. -/
def load_rules_by_tags (now doc : Str) (tags : List Str) : List RuleDict :=
  let all_rules := load_all_rules now doc
  if tags.isEmpty then all_rules
  else all_rules.filter (fun r => tags.any fun t => (r.tags.getD []).contains t)

/-- Modelled from the spec: the repository has no `apply` implementation
under src/ (the RuleApplier of design-document section 4.3 is described
only there), so the operation is modelled from the spec's words: start
from the code blob, and for each candidate rule in order, if its
original code is non-empty and occurs as a literal substring of the
current result, replace every occurrence by the modified code and
record the rule's name; each rule sees the cumulative output of the
previous ones. -/
def apply_rules_to_code (rules : List RuleDict) (code : Str) : Str × List Str :=
  rules.foldl
    (fun acc r =>
      let orig := ruleGet r.original_code
      if !orig.isEmpty && hasSub orig acc.1 then
        (pyReplace orig (ruleGet r.modified_code) acc.1, acc.2 ++ [ruleGet r.name])
      else acc)
    (code, [])

/-- Merge the last line of the first block with the first line of the
second, as concatenating two strings does to their line lists. -/
def glueLines : List Str → List Str → List Str
  | [], ys => ys
  | [x], [] => [x]
  | [x], y :: ys => (x ++ y) :: ys
  | x :: xs, ys => x :: glueLines xs ys

/-- The line list of a serialized rule section up to its closing
fence: header line, blank, description lines, blank, the two labelled
fenced blocks. -/
def secCore (r : RuleDict) : List Str :=
  ("## ".data ++ ruleGet r.name) :: [] :: pySplit '\n' (ruleGet r.description) ++
    ([] :: origHdr :: [] :: "```".data :: pySplit '\n' (ruleGet r.original_code)) ++
    ("```".data :: [] :: modHdr :: [] :: "```".data :: pySplit '\n' (ruleGet r.modified_code)) ++
    ["```".data]

/-- The line list of a serialized rule section, without the final
empty line contributed by the terminating newline (which merges with
the next section's header line when sections are concatenated). -/
def secLines (r : RuleDict) : List Str := secCore r ++ [[]]

/-- The section chunks produced by splitting the serialized document:
one chunk per rule, the last one carrying the final blank line. -/
def secChunksTail : List (List Str) → List (List Str)
  | [] => []
  | [b] => [b ++ [[]]]
  | b :: rest => b :: secChunksTail rest

/-- A description line that survives the round trip: it neither opens
a new section nor is mistaken for the original-code sub-header. -/
def descLineOk (l : Str) : Bool := !pyStartsWith hdrMark l && !pyStartsWith origHdr l

/-- A code line that survives the round trip: it neither opens a new
section nor closes its fenced block early. -/
def codeLineOk (l : Str) : Bool := !pyStartsWith hdrMark l && !isFenceLine l

/-- A rule whose content fields survive serialization and re-parsing:
the name is non-empty, already stripped, single-line and free of the
`'## '` marker; the description is already stripped and none of its
lines collides with the format's markers; no code line collides with
the markers; and at least one code field is non-empty (the parser's
keep condition). -/
def contentOk (r : RuleDict) : Bool :=
  !(ruleGet r.name).isEmpty &&
  (pyStrip (ruleGet r.name) == ruleGet r.name) &&
  !(ruleGet r.name).contains '\n' &&
  !hasSub hdrMark (ruleGet r.name) &&
  (pyStrip (ruleGet r.description) == ruleGet r.description) &&
  (pySplit '\n' (ruleGet r.description)).all descLineOk &&
  (pySplit '\n' (ruleGet r.original_code)).all codeLineOk &&
  (pySplit '\n' (ruleGet r.modified_code)).all codeLineOk &&
  (!(ruleGet r.original_code).isEmpty || !(ruleGet r.modified_code).isEmpty)

/-- The content fields of a record, in the sense of the round-trip
property: name, description, original code, modified code, each read
with the empty-string default the serializer uses. -/
def contentOf (r : RuleDict) : Str × Str × Str × Str :=
  (ruleGet r.name, ruleGet r.description, ruleGet r.original_code, ruleGet r.modified_code)

/-- The record the parser recovers for a serialized rule: the content
fields survive, identity and annotation fields are synthesized. -/
def parsedOf (now : Str) (r : RuleDict) : RuleDict :=
  mkParsed now (ruleGet r.name) (ruleGet r.description)
    (ruleGet r.original_code) (ruleGet r.modified_code)

/-! ### Lemmas about the string primitives -/

theorem pySplit_ne_nil (c : Char) (s : Str) : pySplit c s ≠ [] := by
  induction s with
  | nil => simp [pySplit]
  | cons x xs ih =>
    simp only [pySplit]
    split
    · simp
    · split
      · simp
      · simp

theorem glueLines_cons_cons (x : Str) (xs : List Str) (ys : List Str)
    (hxs : xs ≠ []) : glueLines (x :: xs) ys = x :: glueLines xs ys := by
  match xs, ys with
  | a :: as, _ => rfl

theorem pySplit_cons_sep (c : Char) (s : Str) :
    pySplit c (c :: s) = [] :: pySplit c s := by
  simp [pySplit]

theorem pySplit_cons_ne (c x : Char) (s : Str) (hx : x ≠ c) :
    pySplit c (x :: s) =
      match pySplit c s with
      | [] => [[x]]
      | l :: ls => (x :: l) :: ls := by
  simp [pySplit, hx]

theorem pySplit_append (c : Char) (a b : Str) :
    pySplit c (a ++ b) = glueLines (pySplit c a) (pySplit c b) := by
  induction a with
  | nil =>
    simp only [List.nil_append, pySplit]
    match h : pySplit c b with
    | [] => exact absurd h (pySplit_ne_nil c b)
    | y :: ys => rfl
  | cons x xs ih =>
    rw [List.cons_append]
    by_cases hx : x = c
    · subst hx
      rw [pySplit_cons_sep, pySplit_cons_sep, ih,
        glueLines_cons_cons _ _ _ (pySplit_ne_nil x xs)]
    · rw [pySplit_cons_ne c x _ hx, pySplit_cons_ne c x _ hx, ih]
      match h : pySplit c xs with
      | [] => exact absurd h (pySplit_ne_nil c xs)
      | l :: ls =>
        match h2 : pySplit c b with
        | [] => exact absurd h2 (pySplit_ne_nil c b)
        | y :: ys =>
          match ls with
          | [] => rfl
          | l2 :: ls2 => rfl

theorem glueLines_snoc_cons (X : List Str) (x y : Str) (ys : List Str) :
    glueLines (X ++ [x]) (y :: ys) = X ++ (x ++ y) :: ys := by
  induction X with
  | nil => rfl
  | cons z zs ih =>
    rw [List.cons_append, glueLines_cons_cons _ _ _ (by simp), ih, List.cons_append]

theorem glueLines_snoc_nil (X : List Str) (y : Str) (ys : List Str) :
    glueLines (X ++ [[]]) (y :: ys) = X ++ y :: ys := by
  simpa using glueLines_snoc_cons X [] y ys

theorem glueLines_cons_nil (X : List Str) (hX : X ≠ []) (ys : List Str) :
    glueLines X ([] :: ys) = X ++ ys := by
  induction X with
  | nil => exact absurd rfl hX
  | cons z zs ih =>
    match zs with
    | [] => simp [glueLines]
    | w :: ws =>
      rw [glueLines_cons_cons _ _ _ (by simp), ih (by simp)]
      simp

theorem pySplit_no_sep (c : Char) (s : Str) (h : c ∉ s) : pySplit c s = [s] := by
  induction s with
  | nil => rfl
  | cons x xs ih =>
    simp only [List.mem_cons, not_or] at h
    rw [pySplit_cons_ne c x xs (fun hxc => h.1 hxc.symm), ih h.2]

theorem not_mem_of_mem_pySplit (c : Char) (s l : Str) (h : l ∈ pySplit c s) :
    c ∉ l := by
  induction s generalizing l with
  | nil =>
    simp only [pySplit, List.mem_singleton] at h
    simp [h]
  | cons x xs ih =>
    by_cases hx : x = c
    · subst hx
      rw [pySplit_cons_sep, List.mem_cons] at h
      rcases h with h | h
      · simp [h]
      · exact ih l h
    · rw [pySplit_cons_ne c x xs hx] at h
      cases h2 : pySplit c xs with
      | nil => exact absurd h2 (pySplit_ne_nil c xs)
      | cons m ms =>
        rw [h2, List.mem_cons] at h
        rcases h with h | h
        · subst h
          have hm : c ∉ m := ih m (by rw [h2]; exact List.mem_cons_self m ms)
          simp only [List.mem_cons, not_or]
          exact ⟨fun hc => hx hc.symm, hm⟩
        · exact ih l (by rw [h2]; exact List.mem_cons_of_mem m h)

theorem pyJoin_cons_cons (c : Char) (x l : Str) (ls : List Str) :
    pyJoin c (x :: l :: ls) = x ++ c :: pyJoin c (l :: ls) := rfl

theorem pyJoin_pySplit (c : Char) (s : Str) : pyJoin c (pySplit c s) = s := by
  induction s with
  | nil => rfl
  | cons x xs ih =>
    by_cases hx : x = c
    · subst hx
      rw [pySplit_cons_sep]
      cases h : pySplit x xs with
      | nil => exact absurd h (pySplit_ne_nil x xs)
      | cons l ls =>
        rw [h] at ih
        rw [pyJoin_cons_cons, ih]
        rfl
    · rw [pySplit_cons_ne c x xs hx]
      cases h : pySplit c xs with
      | nil => exact absurd h (pySplit_ne_nil c xs)
      | cons l ls =>
        rw [h] at ih
        cases ls with
        | nil => simpa [pyJoin] using ih
        | cons m ms =>
          rw [pyJoin_cons_cons] at ih ⊢
          rw [← ih]
          rfl

theorem pyJoin_append (c : Char) (ls₁ ls₂ : List Str) (h₁ : ls₁ ≠ []) (h₂ : ls₂ ≠ []) :
    pyJoin c (ls₁ ++ ls₂) = pyJoin c ls₁ ++ c :: pyJoin c ls₂ := by
  induction ls₁ with
  | nil => exact absurd rfl h₁
  | cons x xs ih =>
    cases xs with
    | nil =>
      cases ls₂ with
      | nil => exact absurd rfl h₂
      | cons y ys => simp [pyJoin]
    | cons z zs =>
      have ih' := ih (by simp)
      simp only [List.cons_append] at ih' ⊢
      rw [pyJoin_cons_cons c x z (zs ++ ls₂), ih', pyJoin_cons_cons c x z zs]
      simp

theorem pySplit_pyJoin (c : Char) (ls : List Str) (h : ls ≠ [])
    (hmem : ∀ l ∈ ls, c ∉ l) : pySplit c (pyJoin c ls) = ls := by
  induction ls with
  | nil => exact absurd rfl h
  | cons x xs ih =>
    cases xs with
    | nil => simp [pyJoin, pySplit_no_sep c x (hmem x (by simp))]
    | cons z zs =>
      have hx : c ∉ x := hmem x (by simp)
      have hrest : ∀ l ∈ z :: zs, c ∉ l := fun l hl => hmem l (List.mem_cons_of_mem x hl)
      rw [pyJoin_cons_cons, pySplit_append, pySplit_no_sep c x hx, pySplit_cons_sep,
        ih (by simp) hrest]
      simp [glueLines]

theorem pyStrip_eq_rdrop (s : Str) :
    pyStrip s = List.rdropWhile wsp (s.dropWhile wsp) := rfl

theorem pyStrip_cons_ws (w : Char) (s : Str) (hw : wsp w = true) :
    pyStrip (w :: s) = pyStrip s := by
  rw [pyStrip_eq_rdrop, pyStrip_eq_rdrop, List.dropWhile_cons_of_pos hw]

theorem pyStrip_snoc_ws (w : Char) (s : Str) (hw : wsp w = true) :
    pyStrip (s ++ [w]) = pyStrip s := by
  rw [pyStrip_eq_rdrop, pyStrip_eq_rdrop, List.dropWhile_append]
  by_cases h : (s.dropWhile wsp).isEmpty
  · rw [if_pos h]
    rw [List.isEmpty_iff] at h
    rw [h, List.dropWhile_cons_of_pos hw]
    rfl
  · rw [if_neg h, List.rdropWhile_concat, if_pos hw]

theorem pyStrip_eq_self_of (s : Str) (h1 : s.dropWhile wsp = s)
    (h2 : s.reverse.dropWhile wsp = s.reverse) : pyStrip s = s := by
  unfold pyStrip
  rw [h1, h2, List.reverse_reverse]

theorem pyStrip_eq_self_of_ends (a b : Char) (x y : Str)
    (ha : wsp a = false) (hb : wsp b = false) (hxy : a :: x = y ++ [b]) :
    pyStrip (a :: x) = a :: x := by
  apply pyStrip_eq_self_of
  · rw [List.dropWhile_cons_of_neg (by simp [ha])]
  · rw [hxy]
    simp only [List.reverse_append, List.reverse_cons, List.reverse_nil,
      List.nil_append, List.singleton_append]
    rw [List.dropWhile_cons_of_neg (by simp [hb])]

theorem pyStrip_cons_ne_nil (a : Char) (s : Str) (ha : wsp a = false) :
    pyStrip (a :: s) ≠ [] := by
  unfold pyStrip
  rw [List.dropWhile_cons_of_neg (by simp [ha])]
  intro hnil
  have h2 : ((a :: s).reverse.dropWhile wsp) = [] := by
    simpa using congrArg List.reverse hnil
  have := List.dropWhile_eq_nil_iff.mp h2 a (by simp)
  rw [ha] at this
  exact Bool.false_ne_true this

/-! ### Lemmas about `pyReplace` and `hasSub` -/

theorem pyReplaceFuel_of_not_hasSub (pat rep : Str) (fuel : Nat) (s : Str)
    (h : hasSub pat s = false) : pyReplaceFuel pat rep fuel s = s := by
  induction fuel generalizing s with
  | zero => cases s <;> rfl
  | succ n ih =>
    cases s with
    | nil => rfl
    | cons c cs =>
      simp only [hasSub, Bool.or_eq_false_iff] at h
      rw [pyReplaceFuel, if_neg (by simp [h.1]), ih cs h.2]

theorem pyReplace_of_not_hasSub (pat rep s : Str) (h : hasSub pat s = false) :
    pyReplace pat rep s = s :=
  pyReplaceFuel_of_not_hasSub pat rep s.length s h

theorem pyReplace_hdrMark (n : Str) (h : hasSub hdrMark n = false) :
    pyReplace hdrMark [] (hdrMark ++ n) = n := by
  show pyReplaceFuel hdrMark [] (hdrMark ++ n).length (hdrMark ++ n) = n
  have hlen : (hdrMark ++ n).length = n.length + 3 := by
    simp only [List.length_append, hdrMark]
    norm_num
    omega
  rw [hlen]
  have hpre : hdrMark.isPrefixOf (hdrMark ++ n) = true := by
    rw [List.isPrefixOf_iff_prefix]
    exact ⟨n, rfl⟩
  show pyReplaceFuel hdrMark [] (n.length + 2 + 1) ('#' :: '#' :: ' ' :: n) = n
  rw [pyReplaceFuel, if_pos ⟨by simp [hdrMark], hpre⟩]
  show pyReplaceFuel hdrMark [] (n.length + 2) (List.drop 2 ('#' :: ' ' :: n)) = n
  rw [List.drop_succ_cons, List.drop_succ_cons, List.drop_zero]
  exact pyReplaceFuel_of_not_hasSub hdrMark [] (n.length + 2) n h

/-! ### Structure of the serialized document -/

theorem foldl_append_sections (f : RuleDict → Str) (rules : List RuleDict) (x : Str) :
    rules.foldl (fun acc r => acc ++ f r) x = x ++ (rules.map f).flatten := by
  induction rules generalizing x with
  | nil => simp
  | cons r rest ih =>
    simp only [List.foldl_cons, List.map_cons, List.flatten_cons]
    rw [ih, List.append_assoc]

theorem convert_rules_to_mdc_eq (rules : List RuleDict) :
    convert_rules_to_mdc rules =
      "# 자동 규칙 모음\n\n".data ++ (rules.map ruleSection).flatten :=
  foldl_append_sections ruleSection rules _

theorem foldl_parseChunk (now : Str) (chunks : List (List Str)) (a : List RuleDict) :
    chunks.foldl
        (fun acc chunk =>
          match parseChunk now chunk with
          | some r => acc ++ [r]
          | none => acc) a =
      a ++ chunks.filterMap (parseChunk now) := by
  induction chunks generalizing a with
  | nil => simp
  | cons c cs ih =>
    simp only [List.foldl_cons, List.filterMap_cons]
    cases h : parseChunk now c with
    | none => simp [h, ih]
    | some r => simp [h, ih, List.append_assoc]

theorem glueLines_single (x y : Str) (ys : List Str) :
    glueLines [x] (y :: ys) = (x ++ y) :: ys := rfl

theorem glueLines_snoc_nil_ne (X : List Str) (ys : List Str) (h : ys ≠ []) :
    glueLines (X ++ [[]]) ys = X ++ ys := by
  cases ys with
  | nil => exact absurd rfl h
  | cons y ys => exact glueLines_snoc_nil X y ys

theorem pySplit_ruleSection (r : RuleDict) (hn : '\n' ∉ ruleGet r.name) :
    pySplit '\n' (ruleSection r) = secLines r ++ [[]] := by
  have hD := pySplit_ne_nil '\n' (ruleGet r.description)
  have hO := pySplit_ne_nil '\n' (ruleGet r.original_code)
  have hM := pySplit_ne_nil '\n' (ruleGet r.modified_code)
  have t1 : pySplit '\n' (ruleGet r.modified_code ++ "\n```\n\n".data) =
      pySplit '\n' (ruleGet r.modified_code) ++ ["```".data, [], []] := by
    rw [pySplit_append,
      show pySplit '\n' "\n```\n\n".data = [] :: ["```".data, [], []] by decide,
      glueLines_cons_nil _ hM]
  have t2 : pySplit '\n' ("```\n".data ++ (ruleGet r.modified_code ++ "\n```\n\n".data)) =
      ["```".data] ++ pySplit '\n' (ruleGet r.modified_code) ++ ["```".data, [], []] := by
    rw [pySplit_append, t1,
      show pySplit '\n' "```\n".data = ["```".data] ++ [[]] by decide,
      glueLines_snoc_nil_ne _ _ (by simp)]
    simp
  have t3 : pySplit '\n'
      ("### 수정된 코드\n\n".data ++
        ("```\n".data ++ (ruleGet r.modified_code ++ "\n```\n\n".data))) =
      [modHdr, [], "```".data] ++ pySplit '\n' (ruleGet r.modified_code) ++
        ["```".data, [], []] := by
    rw [pySplit_append, t2,
      show pySplit '\n' "### 수정된 코드\n\n".data = [modHdr, []] ++ [[]] by decide,
      glueLines_snoc_nil_ne _ _ (by simp)]
    simp
  have t4 : pySplit '\n'
      ("\n```\n\n".data ++
        ("### 수정된 코드\n\n".data ++
          ("```\n".data ++ (ruleGet r.modified_code ++ "\n```\n\n".data)))) =
      [[], "```".data, [], modHdr, [], "```".data] ++
        pySplit '\n' (ruleGet r.modified_code) ++ ["```".data, [], []] := by
    rw [pySplit_append, t3,
      show pySplit '\n' "\n```\n\n".data = [[], "```".data, []] ++ [[]] by decide,
      glueLines_snoc_nil_ne _ _ (by simp)]
    simp
  have t5 : pySplit '\n'
      (ruleGet r.original_code ++
        ("\n```\n\n".data ++
          ("### 수정된 코드\n\n".data ++
            ("```\n".data ++ (ruleGet r.modified_code ++ "\n```\n\n".data))))) =
      pySplit '\n' (ruleGet r.original_code) ++
        ["```".data, [], modHdr, [], "```".data] ++
        pySplit '\n' (ruleGet r.modified_code) ++ ["```".data, [], []] := by
    rw [pySplit_append, t4,
      show ([[], "```".data, [], modHdr, [], "```".data] ++
          pySplit '\n' (ruleGet r.modified_code) ++ ["```".data, [], []]) =
        [] :: (["```".data, [], modHdr, [], "```".data] ++
          pySplit '\n' (ruleGet r.modified_code) ++ ["```".data, [], []]) by simp,
      glueLines_cons_nil _ hO]
    simp
  have t6 : pySplit '\n'
      ("```\n".data ++
        (ruleGet r.original_code ++
          ("\n```\n\n".data ++
            ("### 수정된 코드\n\n".data ++
              ("```\n".data ++ (ruleGet r.modified_code ++ "\n```\n\n".data)))))) =
      ["```".data] ++ pySplit '\n' (ruleGet r.original_code) ++
        ["```".data, [], modHdr, [], "```".data] ++
        pySplit '\n' (ruleGet r.modified_code) ++ ["```".data, [], []] := by
    rw [pySplit_append, t5,
      show pySplit '\n' "```\n".data = ["```".data] ++ [[]] by decide,
      glueLines_snoc_nil_ne _ _ (by simp)]
    simp
  have t7 : pySplit '\n'
      ("\n\n".data ++
        ("### 원본 코드\n\n".data ++
          ("```\n".data ++
            (ruleGet r.original_code ++
              ("\n```\n\n".data ++
                ("### 수정된 코드\n\n".data ++
                  ("```\n".data ++ (ruleGet r.modified_code ++ "\n```\n\n".data)))))))) =
      [[], [], origHdr, [], "```".data] ++ pySplit '\n' (ruleGet r.original_code) ++
        ["```".data, [], modHdr, [], "```".data] ++
        pySplit '\n' (ruleGet r.modified_code) ++ ["```".data, [], []] := by
    have t6a : pySplit '\n'
        ("### 원본 코드\n\n".data ++
          ("```\n".data ++
            (ruleGet r.original_code ++
              ("\n```\n\n".data ++
                ("### 수정된 코드\n\n".data ++
                  ("```\n".data ++ (ruleGet r.modified_code ++ "\n```\n\n".data))))))) =
        [origHdr, [], "```".data] ++ pySplit '\n' (ruleGet r.original_code) ++
          ["```".data, [], modHdr, [], "```".data] ++
          pySplit '\n' (ruleGet r.modified_code) ++ ["```".data, [], []] := by
      rw [pySplit_append, t6,
        show pySplit '\n' "### 원본 코드\n\n".data = [origHdr, []] ++ [[]] by decide,
        glueLines_snoc_nil_ne _ _ (by simp)]
      simp
    rw [pySplit_append, t6a,
      show pySplit '\n' "\n\n".data = [[], []] ++ [[]] by decide,
      glueLines_snoc_nil_ne _ _ (by simp)]
    simp
  have t8 : pySplit '\n'
      (ruleGet r.description ++
        ("\n\n".data ++
          ("### 원본 코드\n\n".data ++
            ("```\n".data ++
              (ruleGet r.original_code ++
                ("\n```\n\n".data ++
                  ("### 수정된 코드\n\n".data ++
                    ("```\n".data ++
                      (ruleGet r.modified_code ++ "\n```\n\n".data))))))))) =
      pySplit '\n' (ruleGet r.description) ++
        [[], origHdr, [], "```".data] ++ pySplit '\n' (ruleGet r.original_code) ++
        ["```".data, [], modHdr, [], "```".data] ++
        pySplit '\n' (ruleGet r.modified_code) ++ ["```".data, [], []] := by
    rw [pySplit_append, t7,
      show ([[], [], origHdr, [], "```".data] ++
          pySplit '\n' (ruleGet r.original_code) ++
          ["```".data, [], modHdr, [], "```".data] ++
          pySplit '\n' (ruleGet r.modified_code) ++ ["```".data, [], []]) =
        [] :: ([[], origHdr, [], "```".data] ++
          pySplit '\n' (ruleGet r.original_code) ++
          ["```".data, [], modHdr, [], "```".data] ++
          pySplit '\n' (ruleGet r.modified_code) ++ ["```".data, [], []]) by simp,
      glueLines_cons_nil _ hD]
    simp
  have t9 : pySplit '\n'
      ("\n\n".data ++
        (ruleGet r.description ++
          ("\n\n".data ++
            ("### 원본 코드\n\n".data ++
              ("```\n".data ++
                (ruleGet r.original_code ++
                  ("\n```\n\n".data ++
                    ("### 수정된 코드\n\n".data ++
                      ("```\n".data ++
                        (ruleGet r.modified_code ++ "\n```\n\n".data)))))))))) =
      [[], []] ++ pySplit '\n' (ruleGet r.description) ++
        [[], origHdr, [], "```".data] ++ pySplit '\n' (ruleGet r.original_code) ++
        ["```".data, [], modHdr, [], "```".data] ++
        pySplit '\n' (ruleGet r.modified_code) ++ ["```".data, [], []] := by
    rw [pySplit_append, t8,
      show pySplit '\n' "\n\n".data = [[], []] ++ [[]] by decide,
      glueLines_snoc_nil_ne _ _ (by simp)]
    simp
  have t10 : pySplit '\n'
      (ruleGet r.name ++
        ("\n\n".data ++
          (ruleGet r.description ++
            ("\n\n".data ++
              ("### 원본 코드\n\n".data ++
                ("```\n".data ++
                  (ruleGet r.original_code ++
                    ("\n```\n\n".data ++
                      ("### 수정된 코드\n\n".data ++
                        ("```\n".data ++
                          (ruleGet r.modified_code ++ "\n```\n\n".data))))))))))) =
      [ruleGet r.name, []] ++ pySplit '\n' (ruleGet r.description) ++
        [[], origHdr, [], "```".data] ++ pySplit '\n' (ruleGet r.original_code) ++
        ["```".data, [], modHdr, [], "```".data] ++
        pySplit '\n' (ruleGet r.modified_code) ++ ["```".data, [], []] := by
    rw [pySplit_append, t9, pySplit_no_sep '\n' _ hn]
    rw [show ([[], []] ++ pySplit '\n' (ruleGet r.description) ++
        [[], origHdr, [], "```".data] ++ pySplit '\n' (ruleGet r.original_code) ++
        ["```".data, [], modHdr, [], "```".data] ++
        pySplit '\n' (ruleGet r.modified_code) ++ ["```".data, [], []]) =
      [] :: ([[]] ++ pySplit '\n' (ruleGet r.description) ++
        [[], origHdr, [], "```".data] ++ pySplit '\n' (ruleGet r.original_code) ++
        ["```".data, [], modHdr, [], "```".data] ++
        pySplit '\n' (ruleGet r.modified_code) ++ ["```".data, [], []]) by simp]
    rw [glueLines_single]
    simp
  unfold ruleSection
  simp only [List.append_assoc]
  rw [pySplit_append, t10, pySplit_no_sep '\n' "## ".data (by decide)]
  rw [show ([ruleGet r.name, []] ++ pySplit '\n' (ruleGet r.description) ++
      [[], origHdr, [], "```".data] ++ pySplit '\n' (ruleGet r.original_code) ++
      ["```".data, [], modHdr, [], "```".data] ++
      pySplit '\n' (ruleGet r.modified_code) ++ ["```".data, [], []]) =
    ruleGet r.name :: ([[]] ++ pySplit '\n' (ruleGet r.description) ++
      [[], origHdr, [], "```".data] ++ pySplit '\n' (ruleGet r.original_code) ++
      ["```".data, [], modHdr, [], "```".data] ++
      pySplit '\n' (ruleGet r.modified_code) ++ ["```".data, [], []]) by simp]
  rw [glueLines_single]
  simp [secLines, secCore]

theorem pySplit_foldl_sections (rules : List RuleDict) (x : Str) (X : List Str)
    (hx : pySplit '\n' x = X ++ [[]])
    (h : ∀ r ∈ rules, '\n' ∉ ruleGet r.name) :
    pySplit '\n' (x ++ (rules.map ruleSection).flatten) =
      X ++ (rules.map secLines).flatten ++ [[]] := by
  induction rules generalizing x X with
  | nil => simpa using hx
  | cons r rest ih =>
    have hsec : pySplit '\n' (x ++ ruleSection r) = (X ++ secLines r) ++ [[]] := by
      rw [pySplit_append, hx, pySplit_ruleSection r (h r (by simp)),
        glueLines_snoc_nil_ne _ _ (by simp [secLines]), List.append_assoc]
    have := ih (x ++ ruleSection r) (X ++ secLines r) hsec
      (fun q hq => h q (List.mem_cons_of_mem r hq))
    simp only [List.map_cons, List.flatten_cons, ← List.append_assoc] at this ⊢
    exact this

theorem pySplit_convert_rules_to_mdc (rules : List RuleDict)
    (h : ∀ r ∈ rules, '\n' ∉ ruleGet r.name) :
    pySplit '\n' (convert_rules_to_mdc rules) =
      ["# 자동 규칙 모음".data, []] ++ (rules.map secLines).flatten ++ [[]] := by
  rw [convert_rules_to_mdc_eq]
  exact pySplit_foldl_sections rules _ ["# 자동 규칙 모음".data, []] (by decide) h

/-! ### Structure of the section splitter -/

theorem splitSections_append (xs ys : List Str) :
    splitSections (xs ++ ys) = xs.foldr splitSectionsStep (splitSections ys) :=
  List.foldr_append ..

theorem foldr_step_no_hdr (ls : List Str) (c : List Str) (cs : List (List Str))
    (h : ∀ l ∈ ls, pyStartsWith hdrMark l = false) :
    ls.foldr splitSectionsStep (c :: cs) = (ls ++ c) :: cs := by
  induction ls with
  | nil => simp
  | cons a as ih =>
    rw [List.foldr_cons, ih (fun l hl => h l (List.mem_cons_of_mem a hl))]
    simp [splitSectionsStep, h a (by simp)]

theorem splitSections_flatten (bs : List (List Str))
    (hb : ∀ b ∈ bs, ∃ hd tl, b = hd :: tl ∧ pyStartsWith hdrMark hd = true ∧
      ∀ l ∈ tl, pyStartsWith hdrMark l = false) :
    splitSections (bs.flatten ++ [[]]) =
      if bs.isEmpty then [[[]]] else [] :: secChunksTail bs := by
  induction bs with
  | nil => decide
  | cons b rest ih =>
    obtain ⟨hd, tl, hbtl, hhd, htl⟩ := hb b (by simp)
    have ihr := ih (fun q hq => hb q (List.mem_cons_of_mem b hq))
    rw [List.flatten_cons, List.append_assoc, splitSections_append, ihr]
    subst hbtl
    cases rest with
    | nil =>
      simp only [List.isEmpty_nil, if_true]
      rw [List.foldr_cons, foldr_step_no_hdr tl [[]] [] htl]
      simp [splitSectionsStep, hhd, secChunksTail]
    | cons r2 rest2 =>
      simp only [List.isEmpty_cons, Bool.false_eq_true, if_false]
      rw [List.foldr_cons,
        foldr_step_no_hdr tl [] (secChunksTail (r2 :: rest2)) htl]
      have hsec : secChunksTail ((hd :: tl) :: r2 :: rest2) =
          (hd :: tl) :: secChunksTail (r2 :: rest2) := rfl
      rw [hsec]
      simp [splitSectionsStep, hhd]

theorem splitSections_doc (bs : List (List Str))
    (hb : ∀ b ∈ bs, ∃ hd tl, b = hd :: tl ∧ pyStartsWith hdrMark hd = true ∧
      ∀ l ∈ tl, pyStartsWith hdrMark l = false) :
    (splitSections (["# 자동 규칙 모음".data, []] ++ bs.flatten ++ [[]])).drop 1 =
      secChunksTail bs := by
  rw [List.append_assoc, splitSections_append, splitSections_flatten bs hb]
  cases bs with
  | nil =>
    rw [if_pos (by simp)]
    decide
  | cons b rest =>
    rw [if_neg (by simp),
      foldr_step_no_hdr ["# 자동 규칙 모음".data, []] [] (secChunksTail (b :: rest))
        (by decide)]
    simp

/-! ### Parsing one serialized section -/

theorem pyStartsWith_self (p : Str) : pyStartsWith p p = true := by
  rw [pyStartsWith, List.isPrefixOf_iff_prefix]

theorem pyJoin_cons_ne (c : Char) (x : Str) (X : List Str) (hX : X ≠ []) :
    pyJoin c (x :: X) = x ++ c :: pyJoin c X := by
  cases X with
  | nil => exact absurd rfl hX
  | cons y ys => rfl

theorem pyJoin_snoc_nil (X : List Str) (hX : X ≠ []) :
    pyJoin '\n' (X ++ [[]]) = pyJoin '\n' X ++ ['\n'] := by
  rw [pyJoin_append '\n' X [[]] hX (by simp)]
  rfl

theorem sectionName_hdr (n : Str) (hsub : hasSub hdrMark n = false)
    (hstrip : pyStrip n = n) : sectionName ("## ".data ++ n) = n := by
  unfold sectionName
  rw [show ("## ".data : Str) = hdrMark from rfl, pyReplace_hdrMark n hsub, hstrip]

theorem sectionDesc_rt (d : Str) (Z : List Str) (hd_strip : pyStrip d = d)
    (hD : ∀ l ∈ pySplit '\n' d, pyStartsWith origHdr l = false) :
    sectionDesc ([] :: (pySplit '\n' d ++ ([] :: origHdr :: Z))) = d := by
  unfold sectionDesc
  rw [List.takeWhile_cons_of_pos (by decide),
    List.takeWhile_append_of_pos (fun l hl => by simp [hD l hl]),
    List.takeWhile_cons_of_pos (by decide),
    List.takeWhile_cons_of_neg (by simp [pyStartsWith_self])]
  rw [pyJoin_cons_ne '\n' [] _ (by simp),
    pyJoin_snoc_nil _ (pySplit_ne_nil '\n' d), pyJoin_pySplit]
  rw [List.nil_append, pyStrip_cons_ws '\n' _ (by decide),
    pyStrip_snoc_ws '\n' d (by decide), hd_strip]

theorem sectionOrig_rt (d o : Str) (X : List Str)
    (hD : ∀ l ∈ pySplit '\n' d, pyStartsWith origHdr l = false)
    (hO : ∀ l ∈ pySplit '\n' o, isFenceLine l = false) :
    sectionOrig ([] :: (pySplit '\n' d ++
        ([] :: origHdr :: [] :: "```".data ::
          (pySplit '\n' o ++ "```".data :: X)))) =
      (o, "```".data :: X) := by
  unfold sectionOrig
  rw [List.dropWhile_cons_of_pos (by decide),
    List.dropWhile_append_of_pos (fun l hl => by simp [hD l hl]),
    List.dropWhile_cons_of_pos (by decide),
    List.dropWhile_cons_of_neg (by simp [pyStartsWith_self])]
  show extractFenced ([] :: "```".data :: (pySplit '\n' o ++ "```".data :: X)) = _
  unfold extractFenced
  rw [List.dropWhile_cons_of_pos (by decide),
    List.dropWhile_cons_of_neg (by decide)]
  simp only [List.drop_succ_cons, List.drop_zero]
  rw [List.takeWhile_append_of_pos (fun l hl => by simp [hO l hl]),
    List.takeWhile_cons_of_neg (by decide),
    List.dropWhile_append_of_pos (fun l hl => by simp [hO l hl]),
    List.dropWhile_cons_of_neg (by decide)]
  rw [List.append_nil, pyJoin_pySplit]

theorem sectionMod_rt (m : Str) (Y : List Str)
    (hM : ∀ l ∈ pySplit '\n' m, isFenceLine l = false) :
    sectionMod ("```".data :: ([] :: modHdr :: [] :: "```".data ::
        (pySplit '\n' m ++ "```".data :: Y))) = m := by
  unfold sectionMod
  simp only [List.drop_succ_cons, List.drop_zero]
  rw [List.dropWhile_cons_of_pos (by decide),
    List.dropWhile_cons_of_neg (by simp [pyStartsWith_self])]
  show (extractFenced ([] :: "```".data :: (pySplit '\n' m ++ "```".data :: Y))).1 = m
  unfold extractFenced
  rw [List.dropWhile_cons_of_pos (by decide),
    List.dropWhile_cons_of_neg (by decide)]
  simp only [List.drop_succ_cons, List.drop_zero]
  rw [List.takeWhile_append_of_pos (fun l hl => by simp [hM l hl]),
    List.takeWhile_cons_of_neg (by decide)]
  rw [List.append_nil, pyJoin_pySplit]

theorem parseSectionLines_shape (now n d o m : Str)
    (hn_sub : hasSub hdrMark n = false) (hn_strip : pyStrip n = n) (hn_ne : n ≠ [])
    (hd_strip : pyStrip d = d)
    (hD : ∀ l ∈ pySplit '\n' d, pyStartsWith origHdr l = false)
    (hO : ∀ l ∈ pySplit '\n' o, isFenceLine l = false)
    (hM : ∀ l ∈ pySplit '\n' m, isFenceLine l = false)
    (hom : o ≠ [] ∨ m ≠ []) :
    parseSectionLines now (("## ".data ++ n) ::
      [] :: (pySplit '\n' d ++
        ([] :: origHdr :: [] :: "```".data ::
          (pySplit '\n' o ++ "```".data ::
            ([] :: modHdr :: [] :: "```".data ::
              (pySplit '\n' m ++ "```".data :: ([] : List Str))))))) =
      some (mkParsed now n d o m) := by
  rw [parseSectionLines, sectionName_hdr n hn_sub hn_strip,
    sectionOrig_rt d o _ hD hO, sectionMod_rt m [] hM,
    sectionDesc_rt d _ hd_strip hD]
  rw [if_neg (by simp [hn_ne]), if_pos]
  constructor
  · simp [hn_ne]
  · rcases hom with h | h
    · exact Or.inl (by simp [h])
    · exact Or.inr (by simp [h])

/-! ### Re-parsing a serialized section chunk -/

theorem mem_secCore_no_newline (r : RuleDict) (hn : '\n' ∉ ruleGet r.name) :
    ∀ l ∈ secCore r, '\n' ∉ l := by
  intro l hl
  simp only [secCore, List.mem_cons, List.mem_append, or_assoc] at hl
  rcases hl with rfl | rfl | hl | rfl | rfl | rfl | rfl | hl |
    rfl | rfl | rfl | rfl | rfl | hl | rfl | hl
  · intro hmem
    rcases List.mem_append.mp hmem with hmem | hmem
    · revert hmem
      decide
    · exact hn hmem
  · simp
  · exact not_mem_of_mem_pySplit '\n' _ l hl
  · simp
  · decide
  · simp
  · decide
  · exact not_mem_of_mem_pySplit '\n' _ l hl
  · decide
  · simp
  · decide
  · simp
  · decide
  · exact not_mem_of_mem_pySplit '\n' _ l hl
  · decide
  · simp at hl

theorem pyStrip_pyJoin_of_ends (a : Char) (t : Str) (mid : List Str) (z : Str) (b : Char)
    (ha : wsp a = false) (hb : wsp b = false) :
    pyStrip (pyJoin '\n' ((a :: t) :: mid ++ [z ++ [b]])) =
      pyJoin '\n' ((a :: t) :: mid ++ [z ++ [b]]) ∧
    (pyJoin '\n' ((a :: t) :: mid ++ [z ++ [b]])).isEmpty = false := by
  have h1 : pyJoin '\n' ((a :: t) :: mid ++ [z ++ [b]]) =
      a :: (t ++ '\n' :: pyJoin '\n' (mid ++ [z ++ [b]])) := by
    rw [show ((a :: t) :: mid ++ [z ++ [b]] : List Str) =
        (a :: t) :: (mid ++ [z ++ [b]]) from by simp,
      pyJoin_cons_ne '\n' _ _ (by simp)]
    simp
  have h2 : pyJoin '\n' ((a :: t) :: mid ++ [z ++ [b]]) =
      (pyJoin '\n' ((a :: t) :: mid) ++ '\n' :: z) ++ [b] := by
    rw [pyJoin_append '\n' _ _ (by simp) (by simp)]
    simp [pyJoin]
  refine ⟨pyStrip_eq_self_of _ ?_ ?_, ?_⟩
  · rw [h1, List.dropWhile_cons_of_neg (by simp [ha])]
  · rw [h2, List.reverse_append]
    simp only [List.reverse_cons, List.reverse_nil, List.nil_append,
      List.singleton_append]
    rw [List.dropWhile_cons_of_neg (by simp [hb])]
  · rw [h1]
    rfl

theorem secCore_ends_shape (r : RuleDict) :
    secCore r = ('#' :: ('#' :: ' ' :: ruleGet r.name)) ::
      ([] :: pySplit '\n' (ruleGet r.description) ++
        ([] :: origHdr :: [] :: "```".data :: pySplit '\n' (ruleGet r.original_code)) ++
        ("```".data :: [] :: modHdr :: [] :: "```".data ::
          pySplit '\n' (ruleGet r.modified_code))) ++
      [['`', '`'] ++ ['`']] := by
  simp [secCore]

theorem pyStrip_pyJoin_secCore (r : RuleDict) :
    pyStrip (pyJoin '\n' (secCore r)) = pyJoin '\n' (secCore r) := by
  rw [secCore_ends_shape r]
  exact (pyStrip_pyJoin_of_ends '#' _ _ _ '`' (by decide) (by decide)).1

theorem pyJoin_secCore_isEmpty (r : RuleDict) :
    (pyJoin '\n' (secCore r)).isEmpty = false := by
  rw [secCore_ends_shape r]
  exact (pyStrip_pyJoin_of_ends '#' _ _ _ '`' (by decide) (by decide)).2

theorem pySplit_pyJoin_secCore (r : RuleDict) (hn : '\n' ∉ ruleGet r.name) :
    pySplit '\n' (pyJoin '\n' (secCore r)) = secCore r :=
  pySplit_pyJoin '\n' _ (by simp [secCore]) (mem_secCore_no_newline r hn)

theorem parseChunk_secCore_trailing (now : Str) (r : RuleDict) (tr : List Str)
    (htr : tr = [[]] ∨ tr = [[], []]) (hn : '\n' ∉ ruleGet r.name) :
    parseChunk now (secCore r ++ tr) = parseSectionLines now (secCore r) := by
  have hne : secCore r ≠ [] := by simp [secCore]
  have hjoin : pyStrip (pyJoin '\n' (secCore r ++ tr)) = pyJoin '\n' (secCore r) := by
    rcases htr with rfl | rfl
    · rw [pyJoin_snoc_nil _ hne, ← List.concat_eq_append,
        List.concat_eq_append, pyStrip_snoc_ws '\n' _ (by decide),
        pyStrip_pyJoin_secCore]
    · rw [show (secCore r ++ [[], []]) = (secCore r ++ [[]]) ++ [[]] from by simp,
        pyJoin_snoc_nil _ (by simp [hne]), pyJoin_snoc_nil _ hne,
        List.append_assoc]
      rw [show (['\n'] ++ ['\n'] : Str) = ['\n', '\n'] from rfl,
        show (pyJoin '\n' (secCore r) ++ ['\n', '\n']) =
          (pyJoin '\n' (secCore r) ++ ['\n']) ++ ['\n'] from by simp,
        pyStrip_snoc_ws '\n' _ (by decide), pyStrip_snoc_ws '\n' _ (by decide),
        pyStrip_pyJoin_secCore]
  unfold parseChunk
  rw [hjoin, if_neg (by rw [pyJoin_secCore_isEmpty]; simp),
    pySplit_pyJoin_secCore r hn]

theorem contentOk_spec (r : RuleDict) (h : contentOk r = true) :
    ruleGet r.name ≠ [] ∧ pyStrip (ruleGet r.name) = ruleGet r.name ∧
    '\n' ∉ ruleGet r.name ∧ hasSub hdrMark (ruleGet r.name) = false ∧
    pyStrip (ruleGet r.description) = ruleGet r.description ∧
    (∀ l ∈ pySplit '\n' (ruleGet r.description),
      pyStartsWith hdrMark l = false ∧ pyStartsWith origHdr l = false) ∧
    (∀ l ∈ pySplit '\n' (ruleGet r.original_code),
      pyStartsWith hdrMark l = false ∧ isFenceLine l = false) ∧
    (∀ l ∈ pySplit '\n' (ruleGet r.modified_code),
      pyStartsWith hdrMark l = false ∧ isFenceLine l = false) ∧
    (ruleGet r.original_code ≠ [] ∨ ruleGet r.modified_code ≠ []) := by
  unfold contentOk at h
  simp only [Bool.and_eq_true, Bool.or_eq_true, Bool.not_eq_true', beq_iff_eq,
    List.all_eq_true, descLineOk, codeLineOk, List.isEmpty_eq_false,
    List.contains_eq_any_beq, List.any_eq_true] at h
  obtain ⟨⟨⟨⟨⟨⟨⟨⟨h1, h2⟩, h3⟩, h4⟩, h5⟩, h6⟩, h7⟩, h8⟩, h9⟩ := h
  refine ⟨h1, h2, ?_, h4, h5, ?_, ?_, ?_, h9⟩
  · intro hmem
    have : (ruleGet r.name).any (fun x => '\n' == x) = true := by
      rw [List.any_eq_true]
      exact ⟨'\n', hmem, by simp⟩
    rw [h3] at this
    exact Bool.false_ne_true this
  · intro l hl
    have := h6 l hl
    simp only [Bool.and_eq_true, Bool.not_eq_true'] at this
    exact this
  · intro l hl
    have := h7 l hl
    simp only [Bool.and_eq_true, Bool.not_eq_true'] at this
    exact this
  · intro l hl
    have := h8 l hl
    simp only [Bool.and_eq_true, Bool.not_eq_true'] at this
    exact this

theorem parseSectionLines_secCore (now : Str) (r : RuleDict)
    (hok : contentOk r = true) :
    parseSectionLines now (secCore r) = some (parsedOf now r) := by
  obtain ⟨h1, h2, h3, h4, h5, h6, h7, h8, h9⟩ := contentOk_spec r hok
  have hshape : secCore r = ("## ".data ++ ruleGet r.name) ::
      [] :: (pySplit '\n' (ruleGet r.description) ++
        ([] :: origHdr :: [] :: "```".data ::
          (pySplit '\n' (ruleGet r.original_code) ++ "```".data ::
            ([] :: modHdr :: [] :: "```".data ::
              (pySplit '\n' (ruleGet r.modified_code) ++
                "```".data :: ([] : List Str)))))) := by
    simp [secCore]
  rw [hshape]
  exact parseSectionLines_shape now _ _ _ _ h4 h2 h1 h5
    (fun l hl => (h6 l hl).2) (fun l hl => (h7 l hl).2) (fun l hl => (h8 l hl).2) h9

theorem filterMap_secChunksTail (now : Str) (rules : List RuleDict)
    (hc : ∀ r ∈ rules, contentOk r = true) :
    (secChunksTail (rules.map secLines)).filterMap (parseChunk now) =
      rules.map (parsedOf now) := by
  induction rules with
  | nil => rfl
  | cons r rest ih =>
    have hnr : '\n' ∉ ruleGet r.name := (contentOk_spec r (hc r (by simp))).2.2.1
    have hr : parseSectionLines now (secCore r) = some (parsedOf now r) :=
      parseSectionLines_secCore now r (hc r (by simp))
    cases rest with
    | nil =>
      show List.filterMap (parseChunk now) [secLines r ++ [[]]] = [parsedOf now r]
      rw [List.filterMap_cons]
      rw [show secLines r ++ [[]] = secCore r ++ [[], []] from by simp [secLines],
        parseChunk_secCore_trailing now r [[], []] (Or.inr rfl) hnr, hr]
      rfl
    | cons r2 rest2 =>
      show List.filterMap (parseChunk now)
          (secLines r :: secChunksTail ((r2 :: rest2).map secLines)) = _
      rw [List.filterMap_cons,
        show secLines r = secCore r ++ [[]] from rfl,
        parseChunk_secCore_trailing now r [[]] (Or.inl rfl) hnr, hr,
        ih (fun q hq => hc q (List.mem_cons_of_mem r hq))]
      rfl

theorem pyStartsWith_append (p s : Str) : pyStartsWith p (p ++ s) = true := by
  rw [pyStartsWith, List.isPrefixOf_iff_prefix]
  exact ⟨s, rfl⟩

theorem secLines_hdr_shape (r : RuleDict) (hok : contentOk r = true) :
    ∃ hd tl, secLines r = hd :: tl ∧ pyStartsWith hdrMark hd = true ∧
      ∀ l ∈ tl, pyStartsWith hdrMark l = false := by
  obtain ⟨h1, h2, h3, h4, h5, h6, h7, h8, h9⟩ := contentOk_spec r hok
  refine ⟨"## ".data ++ ruleGet r.name,
    ([] :: pySplit '\n' (ruleGet r.description) ++
      ([] :: origHdr :: [] :: "```".data :: pySplit '\n' (ruleGet r.original_code)) ++
      ("```".data :: [] :: modHdr :: [] :: "```".data ::
        pySplit '\n' (ruleGet r.modified_code)) ++
      ["```".data]) ++ [[]], by simp [secLines, secCore], ?_, ?_⟩
  · exact pyStartsWith_append hdrMark (ruleGet r.name)
  · intro l hl
    simp only [List.mem_cons, List.mem_append, or_assoc] at hl
    rcases hl with rfl | hl | rfl | rfl | rfl | rfl | hl |
      rfl | rfl | rfl | rfl | rfl | hl | rfl | hl | rfl | hl
    · decide
    · exact (h6 l hl).1
    · decide
    · decide
    · decide
    · decide
    · exact (h7 l hl).1
    · decide
    · decide
    · decide
    · decide
    · decide
    · exact (h8 l hl).1
    · decide
    · simp at hl
    · decide
    · simp at hl

theorem convert_roundtrip (now : Str) (rules : List RuleDict)
    (hok : ∀ r ∈ rules, contentOk r = true) :
    convert_mdc_to_rules now (convert_rules_to_mdc rules) =
      rules.map (parsedOf now) := by
  have hn : ∀ r ∈ rules, '\n' ∉ ruleGet r.name :=
    fun r hr => (contentOk_spec r (hok r hr)).2.2.1
  have hguard : (pyStrip (convert_rules_to_mdc rules)).isEmpty = false := by
    rw [convert_rules_to_mdc_eq,
      show ("# 자동 규칙 모음\n\n".data : Str) =
        '#' :: " 자동 규칙 모음\n\n".data from by decide,
      List.cons_append]
    simpa [List.isEmpty_eq_false] using
      pyStrip_cons_ne_nil '#' _ (by decide)
  unfold convert_mdc_to_rules
  rw [if_neg (by simp [hguard]), pySplit_convert_rules_to_mdc rules hn,
    splitSections_doc (rules.map secLines)
      (fun b hb => by
        obtain ⟨r, hr, rfl⟩ := List.mem_map.mp hb
        exact secLines_hdr_shape r (hok r hr)),
    foldl_parseChunk now _ [], List.nil_append,
    filterMap_secChunksTail now rules hok]

/-! ### Claim C1: codec round trip at content level -/

/-- C1 (counterexample): the round trip is not content-preserving for
every list of records with distinct non-empty names and a non-empty
code field.  The single record named `A` with `original_code`
containing a fence line and non-empty `modified_code` satisfies the
claim's hypotheses, yet re-parsing its serialization yields an empty
`original_code` instead of the fence line: the unescaped fence
delimiter corrupts the document. -/
theorem c1_roundtrip_counterexample :
    (let rc : RuleDict :=
      { name := some "A".data, description := some "d".data,
        original_code := some "```".data, modified_code := some "x".data };
    ruleGet rc.name ≠ [] ∧ ruleGet rc.modified_code ≠ [] ∧
    (convert_mdc_to_rules "T".data (convert_rules_to_mdc [rc])).map contentOf =
      [("A".data, "d".data, [], "x".data)] ∧
    ruleGet rc.original_code = "```".data ∧ ("```".data : Str) ≠ []) := by
  decide

/-- C1 (amended): for every list of rule records with pairwise-distinct
non-empty names, where each record has a non-empty `original_code` or
`modified_code`, and whose content additionally round-trips through the
markup (names are stripped, single-line and free of the `'## '`
marker; descriptions are stripped and no description line collides
with the `'## '` or `'### 원본 코드'` markers; no code line collides
with the `'## '` marker or is a fence line), re-parsing the serialized
document yields the same number of records in the same order and
reproduces each record's name, description, original_code and
modified_code exactly (id, created_at, feedback, tags excluded); in
particular `convert_mdc_to_rules (convert_rules_to_mdc []) = []`. -/
theorem c1_roundtrip_amended (now : Str) (rules : List RuleDict)
    (_hdist : rules.Pairwise (fun a b => ruleGet a.name ≠ ruleGet b.name))
    (hok : ∀ r ∈ rules, contentOk r = true) :
    (convert_mdc_to_rules now (convert_rules_to_mdc rules)).length = rules.length ∧
    (convert_mdc_to_rules now (convert_rules_to_mdc rules)).map contentOf =
      rules.map contentOf ∧
    convert_mdc_to_rules now (convert_rules_to_mdc []) = [] := by
  rw [convert_roundtrip now rules hok]
  refine ⟨by simp, ?_, by simpa using convert_roundtrip now [] (by simp)⟩
  rw [List.map_map]
  exact List.map_congr_left fun r _ => rfl

/-- C1 (witness): the amended round-trip theorem applied to a concrete
two-record list, with every hypothesis discharged by computation. -/
theorem c1_roundtrip_amended_witness :
    (convert_mdc_to_rules "T".data (convert_rules_to_mdc
        [{ name := some "rename-var".data, description := some "d1".data,
           original_code := some "foo".data, modified_code := some "bar".data },
         { name := some "B".data, description := some [],
           original_code := some "l1\nl2".data, modified_code := some [] }])).map
        contentOf =
      [{ name := some "rename-var".data, description := some "d1".data,
         original_code := some "foo".data, modified_code := some "bar".data },
       ({ name := some "B".data, description := some [],
          original_code := some "l1\nl2".data, modified_code := some [] } :
          RuleDict)].map contentOf :=
  (c1_roundtrip_amended "T".data _ (by decide) (by decide)).2.1

/-! ### Shape of every parsed record -/

theorem parseSectionLines_some (now : Str) (ls : List Str) (r : RuleDict)
    (h : parseSectionLines now ls = some r) :
    ∃ n d o m, r = mkParsed now n d o m ∧ n ≠ [] ∧ (o ≠ [] ∨ m ≠ []) := by
  cases ls with
  | nil => simp [parseSectionLines] at h
  | cons l0 rest =>
    rw [parseSectionLines] at h
    by_cases h1 : (sectionName l0).isEmpty
    · rw [if_pos h1] at h
      exact absurd h (by simp)
    · rw [if_neg h1] at h
      by_cases h2 : (!(sectionName l0).isEmpty) = true ∧
          ((!(sectionOrig rest).1.isEmpty) = true ∨
            (!(sectionMod (sectionOrig rest).2).isEmpty) = true)
      · rw [if_pos h2] at h
        refine ⟨sectionName l0, sectionDesc rest, (sectionOrig rest).1,
          sectionMod (sectionOrig rest).2, (Option.some.inj h).symm, ?_, ?_⟩
        · simpa [List.isEmpty_eq_false] using h1
        · rcases h2.2 with hx | hx
          · exact Or.inl (by simpa [List.isEmpty_eq_false] using hx)
          · exact Or.inr (by simpa [List.isEmpty_eq_false] using hx)
      · rw [if_neg h2] at h
        exact absurd h (by simp)

theorem parseChunk_some (now : Str) (chunk : List Str) (r : RuleDict)
    (h : parseChunk now chunk = some r) :
    ∃ n d o m, r = mkParsed now n d o m ∧ n ≠ [] ∧ (o ≠ [] ∨ m ≠ []) := by
  unfold parseChunk at h
  by_cases hc : (pyStrip (pyJoin '\n' chunk)).isEmpty
  · rw [if_pos hc] at h
    exact absurd h (by simp)
  · rw [if_neg hc] at h
    exact parseSectionLines_some now _ r h

theorem mem_convert_mdc_shape (now mdc : Str) (r : RuleDict)
    (hr : r ∈ convert_mdc_to_rules now mdc) :
    ∃ n d o m, r = mkParsed now n d o m ∧ n ≠ [] ∧ (o ≠ [] ∨ m ≠ []) := by
  unfold convert_mdc_to_rules at hr
  by_cases hg : (pyStrip mdc).isEmpty
  · rw [if_pos hg] at hr
    simp at hr
  · rw [if_neg hg, foldl_parseChunk now _ [], List.nil_append] at hr
    obtain ⟨chunk, _, hc⟩ := List.mem_filterMap.mp hr
    exact parseChunk_some now chunk r hc

theorem mem_load_all_name (now doc : Str) (r : RuleDict)
    (hr : r ∈ load_all_rules now doc) : ∃ n, r.name = some n ∧ n ≠ [] := by
  obtain ⟨n, d, o, m, rfl, hn, _⟩ := mem_convert_mdc_shape now doc r hr
  exact ⟨n, rfl, hn⟩

/-! ### Lemmas about the store operations -/

theorem updateLoop_spec (req : RuleDict) (fid now : Str) (l : List RuleDict)
    (i : Nat) (ex : RuleDict) (hi : l[i]? = some ex)
    (hb : ∀ r ∈ l.take i, ruleMatches req r = false)
    (hm : ruleMatches req ex = true) :
    updateLoop req fid now l =
      some (l.take i ++ mergeRule ex req fid now :: l.drop (i + 1)) := by
  induction l generalizing i with
  | nil => simp at hi
  | cons a as ih =>
    cases i with
    | zero =>
      simp only [List.getElem?_cons_zero, Option.some.injEq] at hi
      subst hi
      rw [updateLoop, if_pos hm]
      simp
    | succ j =>
      simp only [List.getElem?_cons_succ] at hi
      have hna : ruleMatches req a = false := hb a (by simp [List.take_succ_cons])
      rw [updateLoop, if_neg (by simp [hna]),
        ih j hi (fun q hq => hb q (by simp [List.take_succ_cons, hq]))]
      simp [List.take_succ_cons, List.drop_succ_cons]

theorem length_filter_not_add_countP (p : RuleDict → Bool) (l : List RuleDict) :
    (l.filter fun a => !p a).length + l.countP p = l.length := by
  induction l with
  | nil => rfl
  | cons a as ih =>
    by_cases ha : p a
    · rw [List.filter_cons_of_neg (by simp [ha]), List.countP_cons_of_pos _ _ ha,
        List.length_cons]
      omega
    · rw [List.filter_cons_of_pos (by simp [ha]),
        List.countP_cons_of_neg _ _ ha, List.length_cons, List.length_cons]
      omega

theorem length_filter_not_eq_iff (p : RuleDict → Bool) (l : List RuleDict) :
    ((l.filter fun a => !p a).length = l.length) ↔ ∀ a ∈ l, p a = false := by
  have hkey := length_filter_not_add_countP p l
  constructor
  · intro h a ha
    have hc : l.countP p = 0 := by omega
    by_contra hpa
    have : 0 < l.countP p :=
      List.countP_pos_iff.mpr ⟨a, ha, by simpa [Bool.not_eq_false] using hpa⟩
    omega
  · intro h
    have : l.countP p = 0 :=
      List.countP_eq_zero.mpr (fun a ha => by simp [h a ha])
    omega

/-! ### Claim C4: duplicate add is rejected without writing -/

/-- C4: when the stored record set already contains a record with the
requested name, `add_rule` returns a failure whose message names the
duplicate, performs no write, and leaves the persisted document (hence
`loadAll` before and after) unchanged. -/
theorem c4_add_duplicate (now fid doc : Str) (rule : RuleDict) (n : Str)
    (hname : rule.name = some n) (hne : n ≠ [])
    (hdup : ∃ ex ∈ load_all_rules now doc, ex.name = some n) :
    add_rule now fid doc rule =
      ⟨false, '\'' :: (n ++ "' 규칙이 이미 존재합니다.".data), doc, none⟩ ∧
    load_all_rules now ((add_rule now fid doc rule).doc) = load_all_rules now doc := by
  obtain ⟨ex, hex, hexn⟩ := hdup
  have hmain : add_rule now fid doc rule =
      ⟨false, '\'' :: (n ++ "' 규칙이 이미 존재합니다.".data), doc, none⟩ := by
    unfold add_rule
    rw [if_neg (by simp [optTruthy, hname, hne])]
    rw [if_pos (by
      rw [List.any_eq_true]
      exact ⟨ex, hex, by simp [hexn, hname]⟩)]
    simp [ruleGet, hname]
  exact ⟨hmain, by rw [hmain]⟩

/-- C4 (witness): the duplicate-add theorem applied to a concrete
store holding one rule named `A` and a request reusing that name. -/
theorem c4_add_duplicate_witness :
    add_rule "T".data "F".data
        (convert_rules_to_mdc
          [{ name := some "A".data, description := some "d".data,
             original_code := some "foo".data, modified_code := some "bar".data }])
        { name := some "A".data, description := some "other".data,
          original_code := some "x".data, modified_code := some "y".data } =
      ⟨false, '\'' :: ("A".data ++ "' 규칙이 이미 존재합니다.".data),
        convert_rules_to_mdc
          [{ name := some "A".data, description := some "d".data,
             original_code := some "foo".data, modified_code := some "bar".data }],
        none⟩ :=
  (c4_add_duplicate "T".data "F".data _ _ "A".data rfl (by decide)
    ⟨mkParsed "T".data "A".data "d".data "foo".data "bar".data, by decide, rfl⟩).1

/-! ### Claim C6: delete semantics -/

/-- C6 (counterexample): with two stored sections both named `A`
(duplicate names are representable in the document and parsed as
distinct records), `delete_rule "A"` succeeds but removes both
records: the count drops from 2 to 0, not by exactly one, so the
persisted set is not "the prior set minus the unique record". -/
theorem c6_delete_counterexample :
    (load_all_rules "T".data
        "# t\n\n## A\nd\n### 원본 코드\n```\nx\n```\n## A\nd\n### 원본 코드\n```\ny\n```\n".data).length
        = 2 ∧
    (∃ r ∈ load_all_rules "T".data
        "# t\n\n## A\nd\n### 원본 코드\n```\nx\n```\n## A\nd\n### 원본 코드\n```\ny\n```\n".data,
      r.name = some "A".data) ∧
    (delete_rule "T".data
        "# t\n\n## A\nd\n### 원본 코드\n```\nx\n```\n## A\nd\n### 원본 코드\n```\ny\n```\n".data
        "A".data).ok = true ∧
    (delete_rule "T".data
        "# t\n\n## A\nd\n### 원본 코드\n```\nx\n```\n## A\nd\n### 원본 코드\n```\ny\n```\n".data
        "A".data).written = some [] := by
  refine ⟨by decide, ⟨mkParsed "T".data "A".data "d".data "x".data [], by decide, rfl⟩,
    by decide, by decide⟩

/-- C6 (amended): `delete_rule name` removes every stored record whose
name equals the argument: with no stored record of that name it fails
with `NotFound` and the document (hence the stored set) is unchanged;
with at least one it succeeds and persists exactly the records whose
name differs; when exactly one stored record holds the name, the
record count decreases by exactly one. -/
theorem c6_delete_amended (now doc nm : Str) :
    ((∀ r ∈ load_all_rules now doc, (r.name == some nm) = false) →
      delete_rule now doc nm =
        ⟨false, "규칙 '".data ++ nm ++ "'을(를) 찾을 수 없습니다.".data, doc, none⟩) ∧
    ((∃ r ∈ load_all_rules now doc, (r.name == some nm) = true) →
      delete_rule now doc nm =
        ⟨true, "규칙 '".data ++ nm ++ "'이(가) 삭제되었습니다.".data,
          convert_rules_to_mdc
            ((load_all_rules now doc).filter fun r => !(r.name == some nm)),
          some ((load_all_rules now doc).filter fun r => !(r.name == some nm))⟩) ∧
    ((load_all_rules now doc).countP (fun r => r.name == some nm) = 1 →
      ((load_all_rules now doc).filter fun r => !(r.name == some nm)).length + 1 =
        (load_all_rules now doc).length) := by
  refine ⟨?_, ?_, ?_⟩
  · intro hnone
    unfold delete_rule
    rw [if_pos (by
      rw [beq_iff_eq]
      exact (length_filter_not_eq_iff _ _).mpr hnone)]
  · intro hsome
    unfold delete_rule
    rw [if_neg (by
      rw [beq_iff_eq]
      intro heq
      obtain ⟨r, hr, hrn⟩ := hsome
      have := (length_filter_not_eq_iff _ _).mp heq r hr
      rw [hrn] at this
      simp at this)]
  · intro hone
    have := length_filter_not_add_countP (fun r => r.name == some nm)
      (load_all_rules now doc)
    omega

/-- C6 (witness): the amended delete theorem applied to a concrete
store holding one rule named `A`: deleting `A` persists the empty set
(count decreases by exactly one), deleting `B` fails and leaves the
document unchanged. -/
theorem c6_delete_amended_witness :
    (delete_rule "T".data
        "# t\n\n## A\nd\n### 원본 코드\n```\nx\n```\n".data "A".data).written =
      some [] ∧
    delete_rule "T".data
        "# t\n\n## A\nd\n### 원본 코드\n```\nx\n```\n".data "B".data =
      ⟨false, "규칙 '".data ++ "B".data ++ "'을(를) 찾을 수 없습니다.".data,
        "# t\n\n## A\nd\n### 원본 코드\n```\nx\n```\n".data, none⟩ := by
  constructor
  · rw [((c6_delete_amended "T".data
      "# t\n\n## A\nd\n### 원본 코드\n```\nx\n```\n".data "A".data).2.1
      ⟨mkParsed "T".data "A".data "d".data "x".data [], by decide, by decide⟩)]
    decide
  · exact (c6_delete_amended "T".data
      "# t\n\n## A\nd\n### 원본 코드\n```\nx\n```\n".data "B".data).1
      (by decide)

/-! ### Claim C2: update semantics -/

/-- C2 (counterexample): the update is a replacement, not a merge.
With one stored rule named `A` whose description is `d`, an update
request that carries only the name succeeds, but the resulting stored
record has no description at all: a field omitted from the request
does not retain its prior stored value. -/
theorem c2_update_counterexample :
    ((load_all_rules "T".data (convert_rules_to_mdc
        [{ name := some "A".data, description := some "d".data,
           original_code := some "foo".data, modified_code := some "bar".data }])).map
      (fun r => r.description)) = [some "d".data] ∧
    (update_rule "T".data "F".data
        (convert_rules_to_mdc
          [{ name := some "A".data, description := some "d".data,
             original_code := some "foo".data, modified_code := some "bar".data }])
        { name := some "A".data }).ok = true ∧
    (update_rule "T".data "F".data
        (convert_rules_to_mdc
          [{ name := some "A".data, description := some "d".data,
             original_code := some "foo".data, modified_code := some "bar".data }])
        { name := some "A".data }).written.map
        (List.map fun r => r.description) = some [none] := by
  refine ⟨by decide, by decide, by decide⟩

/-- C2 (amended): when the request carries a truthy name or id and the
first stored record matching it (stored id equal to a present request
id, or stored name equal to a present request name) sits at position
`i`, `update_rule` succeeds and persists the stored list with exactly
that record replaced by the request itself, in which only `id` and
`created_at` are carried over from the pre-existing record (fresh ones
synthesized when the pre-existing record lacked them) and `updated_at`
is set to the current time; every other field of the stored result is
the request's field, so fields omitted from the request end up absent
rather than retaining their prior values, and all other records are
unchanged. -/
theorem c2_update_amended (now fid doc : Str) (req : RuleDict) (i : Nat)
    (ex : RuleDict)
    (hpre : optTruthy req.name = true ∨ optTruthy req.id = true)
    (hi : (load_all_rules now doc)[i]? = some ex)
    (hb : ∀ r ∈ (load_all_rules now doc).take i, ruleMatches req r = false)
    (hm : ruleMatches req ex = true) :
    update_rule now fid doc req =
      ⟨true, "규칙 '".data ++ nameOrId req ++ "'이(가) 업데이트되었습니다.".data,
        convert_rules_to_mdc ((load_all_rules now doc).take i ++
          mergeRule ex req fid now :: (load_all_rules now doc).drop (i + 1)),
        some ((load_all_rules now doc).take i ++
          mergeRule ex req fid now :: (load_all_rules now doc).drop (i + 1))⟩ ∧
    (mergeRule ex req fid now).id =
      some (if optTruthy ex.id then ruleGet ex.id else fid) ∧
    (mergeRule ex req fid now).created_at =
      some (if optTruthy ex.created_at then ruleGet ex.created_at else now) ∧
    (mergeRule ex req fid now).updated_at = some now ∧
    (mergeRule ex req fid now).name = req.name ∧
    (mergeRule ex req fid now).description = req.description ∧
    (mergeRule ex req fid now).original_code = req.original_code ∧
    (mergeRule ex req fid now).modified_code = req.modified_code ∧
    (mergeRule ex req fid now).feedback = req.feedback ∧
    (mergeRule ex req fid now).tags = req.tags := by
  refine ⟨?_, rfl, rfl, rfl, rfl, rfl, rfl, rfl, rfl, rfl⟩
  unfold update_rule
  rw [if_neg (by
    rcases hpre with hp | hp <;> simp [hp])]
  simp only [updateLoop_spec req fid now _ i ex hi hb hm]

/-- C2 (witness): the amended update theorem applied to a concrete
store holding one rule named `A` and a request carrying the name and a
new description. -/
theorem c2_update_amended_witness :
    update_rule "T".data "F".data
        (convert_rules_to_mdc
          [{ name := some "A".data, description := some "d".data,
             original_code := some "foo".data, modified_code := some "bar".data }])
        { name := some "A".data, description := some "d2".data } =
      ⟨true, "규칙 '".data ++ nameOrId { name := some "A".data, description := some "d2".data } ++
          "'이(가) 업데이트되었습니다.".data,
        convert_rules_to_mdc ((load_all_rules "T".data (convert_rules_to_mdc
            [{ name := some "A".data, description := some "d".data,
               original_code := some "foo".data, modified_code := some "bar".data }])).take 0 ++
          mergeRule (mkParsed "T".data "A".data "d".data "foo".data "bar".data)
              { name := some "A".data, description := some "d2".data } "F".data "T".data ::
            (load_all_rules "T".data (convert_rules_to_mdc
              [{ name := some "A".data, description := some "d".data,
                 original_code := some "foo".data, modified_code := some "bar".data }])).drop 1),
        some ((load_all_rules "T".data (convert_rules_to_mdc
            [{ name := some "A".data, description := some "d".data,
               original_code := some "foo".data, modified_code := some "bar".data }])).take 0 ++
          mergeRule (mkParsed "T".data "A".data "d".data "foo".data "bar".data)
              { name := some "A".data, description := some "d2".data } "F".data "T".data ::
            (load_all_rules "T".data (convert_rules_to_mdc
              [{ name := some "A".data, description := some "d".data,
                 original_code := some "foo".data, modified_code := some "bar".data }])).drop 1)⟩ :=
  (c2_update_amended "T".data "F".data _ _ 0
    (mkParsed "T".data "A".data "d".data "foo".data "bar".data)
    (by decide) (by decide) (by simp) (by decide)).1

/-! ### Claim C8: empty-name persistence invariant -/

/-- C8 (counterexample): `update_rule` can persist a record with no
name.  With one stored rule named `A` (parsed id `A_T`), an update
request carrying only that id passes the precheck, matches the stored
record by id, and the record set written to the document contains a
record whose name is absent. -/
theorem c8_empty_name_counterexample :
    (update_rule "T".data "F".data
        (convert_rules_to_mdc
          [{ name := some "A".data, description := some "d".data,
             original_code := some "foo".data, modified_code := some "bar".data }])
        { id := some "A_T".data }).ok = true ∧
    (update_rule "T".data "F".data
        (convert_rules_to_mdc
          [{ name := some "A".data, description := some "d".data,
             original_code := some "foo".data, modified_code := some "bar".data }])
        { id := some "A_T".data }).written.map (List.map fun r => r.name) =
      some [none] := by
  refine ⟨by decide, by decide⟩

/-- C8 (amended): `add_rule` rejects a request without a truthy name
before persisting anything, and every record set written to the
document by `add_rule` or `delete_rule` contains only records with
non-empty names; the invariant does not extend to `update_rule`, which
can persist a nameless record when the request matches by id and omits
the name. -/
theorem c8_empty_name_amended :
    (∀ (now fid doc : Str) (rule : RuleDict), optTruthy rule.name = false →
      add_rule now fid doc rule = ⟨false, "규칙 이름이 필요합니다.".data, doc, none⟩) ∧
    (∀ (now fid doc : Str) (rule : RuleDict) (L : List RuleDict),
      (add_rule now fid doc rule).written = some L →
      ∀ r ∈ L, ∃ n, r.name = some n ∧ n ≠ []) ∧
    (∀ (now doc nm : Str) (L : List RuleDict),
      (delete_rule now doc nm).written = some L →
      ∀ r ∈ L, ∃ n, r.name = some n ∧ n ≠ []) := by
  refine ⟨?_, ?_, ?_⟩
  · intro now fid doc rule h
    unfold add_rule
    rw [if_pos (by simp [h])]
  · intro now fid doc rule L hL r hr
    unfold add_rule at hL
    by_cases h1 : optTruthy rule.name
    · rw [if_neg (by simp [h1])] at hL
      by_cases h2 : (load_all_rules now doc).any fun ex => ex.name == rule.name
      · rw [if_pos h2] at hL
        simp at hL
      · rw [if_neg h2] at hL
        obtain rfl : (load_all_rules now doc) ++
            [{ rule with id := some fid, created_at := some now }] = L :=
          Option.some.inj hL
        rcases List.mem_append.mp hr with hr | hr
        · exact mem_load_all_name now doc r hr
        · rw [List.mem_singleton] at hr
          subst hr
          cases hrn : rule.name with
          | none => rw [hrn] at h1; simp [optTruthy] at h1
          | some n =>
            refine ⟨n, by simp [hrn], ?_⟩
            rw [hrn] at h1
            simpa [optTruthy, List.isEmpty_eq_false] using h1
    · rw [if_pos (by simp [h1])] at hL
      simp at hL
  · intro now doc nm L hL r hr
    unfold delete_rule at hL
    by_cases h1 : (((load_all_rules now doc).filter fun r =>
        !(r.name == some nm)).length == (load_all_rules now doc).length)
    · rw [if_pos h1] at hL
      simp at hL
    · rw [if_neg h1] at hL
      obtain rfl : (load_all_rules now doc).filter (fun r => !(r.name == some nm)) = L :=
        Option.some.inj hL
      exact mem_load_all_name now doc r (List.mem_of_mem_filter hr)

/-- C8 (witness): the amended theorem's add-path facts at concrete
inputs: a nameless add request is rejected with the document
untouched, and the record set written by a successful add consists of
records with non-empty names. -/
theorem c8_empty_name_amended_witness :
    add_rule "T".data "F".data "# 자동 규칙 모음\n\n".data
        { description := some "d".data } =
      ⟨false, "규칙 이름이 필요합니다.".data, "# 자동 규칙 모음\n\n".data, none⟩ ∧
    (∀ r ∈ [mkParsed "T".data "A".data "d".data "x".data []],
      ∃ n, r.name = some n ∧ n ≠ []) := by
  constructor
  · exact c8_empty_name_amended.1 "T".data "F".data _ _ (by decide)
  · intro r hr
    refine c8_empty_name_amended.2.2 "T".data
      "# t\n\n## A\nd\n### 원본 코드\n```\nx\n```\n## B\nd\n### 원본 코드\n```\ny\n```\n".data
      "B".data [mkParsed "T".data "A".data "d".data "x".data []] (by decide) r hr

/-! ### Claim C5: tag filter is match-any -/

/-- C5: `load_rules_by_tags` with an empty tag list returns every
stored record, and with a non-empty tag list returns exactly the
stored records whose tag set has a non-empty intersection with the
requested tags (match-any semantics), as a membership
characterization over the filtered list. -/
theorem c5_tag_filter_match_any (now doc : Str) (tags : List Str) :
    (tags = [] → load_rules_by_tags now doc tags = load_all_rules now doc) ∧
    (tags ≠ [] → ∀ r : RuleDict,
      r ∈ load_rules_by_tags now doc tags ↔
        r ∈ load_all_rules now doc ∧ ∃ t ∈ tags, t ∈ r.tags.getD []) := by
  constructor
  · intro h
    subst h
    simp [load_rules_by_tags]
  · intro h r
    unfold load_rules_by_tags
    rw [if_neg (by simp [h]), List.mem_filter]
    constructor
    · rintro ⟨hmem, hp⟩
      rw [List.any_eq_true] at hp
      obtain ⟨t, ht, hc⟩ := hp
      exact ⟨hmem, t, ht, by simpa using hc⟩
    · rintro ⟨hmem, t, ht, hc⟩
      refine ⟨hmem, ?_⟩
      rw [List.any_eq_true]
      exact ⟨t, ht, by simpa using hc⟩

/-- C5 (witness): the tag-filter theorem at a concrete store and the
tag list `["x"]`, characterizing membership for a concrete record. -/
theorem c5_tag_filter_match_any_witness :
    (mkParsed "T".data "A".data "d".data "x".data [] ∈
        load_rules_by_tags "T".data
          "# t\n\n## A\nd\n### 원본 코드\n```\nx\n```\n".data ["x".data] ↔
      mkParsed "T".data "A".data "d".data "x".data [] ∈
          load_all_rules "T".data
            "# t\n\n## A\nd\n### 원본 코드\n```\nx\n```\n".data ∧
        ∃ t ∈ ["x".data],
          t ∈ (mkParsed "T".data "A".data "d".data "x".data []).tags.getD []) ∧
    load_rules_by_tags "T".data
        "# t\n\n## A\nd\n### 원본 코드\n```\nx\n```\n".data [] =
      load_all_rules "T".data "# t\n\n## A\nd\n### 원본 코드\n```\nx\n```\n".data := by
  constructor
  · exact (c5_tag_filter_match_any "T".data
      "# t\n\n## A\nd\n### 원본 코드\n```\nx\n```\n".data ["x".data]).2
      (by simp) _
  · exact (c5_tag_filter_match_any "T".data
      "# t\n\n## A\nd\n### 원본 코드\n```\nx\n```\n".data []).1 rfl

/-! ### Claim C9: tags and feedback are not persisted by the codec -/

/-- C9: the serializer emits no tag or feedback information (its
output is invariant under arbitrary changes to those fields), every
parsed record carries the empty tag list and the fixed feedback
string, and consequently filtering records loaded from a persisted
document by any non-empty tag list yields the empty list. -/
theorem c9_tags_feedback_not_persisted :
    (∀ (rules : List RuleDict) (tf : RuleDict → Option (List Str))
        (ff : RuleDict → Option Str),
      convert_rules_to_mdc
          (rules.map fun r => { r with tags := tf r, feedback := ff r }) =
        convert_rules_to_mdc rules) ∧
    (∀ (now mdc : Str), ∀ r ∈ convert_mdc_to_rules now mdc,
      r.tags = some [] ∧ r.feedback = some "MDC에서 추출".data) ∧
    (∀ (now doc : Str) (tags : List Str), tags ≠ [] →
      load_rules_by_tags now doc tags = []) := by
  refine ⟨?_, ?_, ?_⟩
  · intro rules tf ff
    rw [convert_rules_to_mdc_eq, convert_rules_to_mdc_eq, List.map_map]
    exact congrArg _ (congrArg _ (List.map_congr_left fun r _ => rfl))
  · intro now mdc r hr
    obtain ⟨n, d, o, m, rfl, -, -⟩ := mem_convert_mdc_shape now mdc r hr
    exact ⟨rfl, rfl⟩
  · intro now doc tags h
    unfold load_rules_by_tags
    rw [if_neg (by simp [h])]
    rw [List.filter_eq_nil_iff]
    intro r hr
    have htags : r.tags = some [] :=
      (mem_convert_mdc_shape now doc r hr).elim fun n hx =>
        hx.elim fun d hx => hx.elim fun o hx => hx.elim fun m hx => by
          rw [hx.1]
          rfl
    simp [htags]

/-- C9 (witness): the parsed-record facts and the empty filter result
at a concrete document and tag list. -/
theorem c9_tags_feedback_witness :
    ((mkParsed "T".data "A".data "d".data "x".data []).tags = some [] ∧
      (mkParsed "T".data "A".data "d".data "x".data []).feedback =
        some "MDC에서 추출".data) ∧
    load_rules_by_tags "T".data
      "# t\n\n## A\nd\n### 원본 코드\n```\nx\n```\n".data ["x".data] = [] := by
  constructor
  · exact c9_tags_feedback_not_persisted.2.1 "T".data
      "# t\n\n## A\nd\n### 원본 코드\n```\nx\n```\n".data _ (by decide)
  · exact c9_tags_feedback_not_persisted.2.2 "T".data
      "# t\n\n## A\nd\n### 원본 코드\n```\nx\n```\n".data ["x".data] (by simp)

/-! ### Claim C7: keep condition and malformed-section recovery -/

/-- C7: every record kept by `convert_mdc_to_rules` has a non-empty
name and at least one non-empty code field; and a document whose
first section lacks the modified-code fence parses to a record with
non-empty `original_code` and empty `modified_code`, while parsing
continues to the following section. -/
theorem c7_keep_condition_and_recovery :
    (∀ (now mdc : Str), ∀ r ∈ convert_mdc_to_rules now mdc,
      (∃ n, r.name = some n ∧ n ≠ []) ∧
      (ruleGet r.original_code ≠ [] ∨ ruleGet r.modified_code ≠ [])) ∧
    convert_mdc_to_rules "T".data
        "# 자동 규칙 모음\n\n## A\n\ndesc\n\n### 원본 코드\n\n```\nfoo\n```\n\n### 수정된 코드\n\n## B\n\nd2\n\n### 원본 코드\n\n```\nbar\n```\n\n### 수정된 코드\n\n```\nbaz\n```\n\n".data =
      [mkParsed "T".data "A".data "desc".data "foo".data [],
       mkParsed "T".data "B".data "d2".data "bar".data "baz".data] := by
  constructor
  · intro now mdc r hr
    obtain ⟨n, d, o, m, rfl, hn, hom⟩ := mem_convert_mdc_shape now mdc r hr
    exact ⟨⟨n, rfl, hn⟩, by simpa [ruleGet] using hom⟩
  · decide

/-- C7 (witness): the keep-condition facts instantiated at a record
parsed from a concrete document. -/
theorem c7_keep_condition_witness :
    (∃ n, (mkParsed "T".data "A".data "desc".data "foo".data []).name =
        some n ∧ n ≠ []) ∧
    (ruleGet (mkParsed "T".data "A".data "desc".data "foo".data []).original_code ≠ [] ∨
      ruleGet (mkParsed "T".data "A".data "desc".data "foo".data []).modified_code ≠ []) :=
  c7_keep_condition_and_recovery.1 "T".data
    "# 자동 규칙 모음\n\n## A\n\ndesc\n\n### 원본 코드\n\n```\nfoo\n```\n\n### 수정된 코드\n\n## B\n\nd2\n\n### 원본 코드\n\n```\nbar\n```\n\n### 수정된 코드\n\n```\nbaz\n```\n\n".data
    _ (by decide)

/-! ### Claim C10: the original-code fence scan runs past the
modified-code sub-header -/

/-- C10: for every section in which no fence line occurs between the
original-code sub-header and the modified-code sub-header, the
original-code scan runs past the modified-code sub-header to the first
fence, so the fenced content of the modified-code sub-section is
assigned to `original_code` and `modified_code` is left empty (no
further modified-code sub-header follows). -/
theorem c10_orig_scan_passes_mod_hdr (now n : Str)
    (pre mid gap body rest : List Str)
    (hn_sub : hasSub hdrMark n = false) (hn_strip : pyStrip n = n) (hn_ne : n ≠ [])
    (hpre : ∀ l ∈ pre, pyStartsWith origHdr l = false)
    (hmid : ∀ l ∈ mid, isFenceLine l = false)
    (hgap : ∀ l ∈ gap, isFenceLine l = false)
    (hbody : ∀ l ∈ body, isFenceLine l = false)
    (hrest : ∀ l ∈ rest, pyStartsWith modHdr l = false)
    (hbody_ne : pyJoin '\n' body ≠ []) :
    parseSectionLines now (("## ".data ++ n) ::
        (pre ++ origHdr :: (mid ++ modHdr :: (gap ++ "```".data ::
          (body ++ "```".data :: rest))))) =
      some (mkParsed now n (pyStrip (pyJoin '\n' pre)) (pyJoin '\n' body) []) := by
  have hOrig : sectionOrig (pre ++ origHdr :: (mid ++ modHdr :: (gap ++ "```".data ::
      (body ++ "```".data :: rest)))) = (pyJoin '\n' body, "```".data :: rest) := by
    unfold sectionOrig
    rw [List.dropWhile_append_of_pos (fun l hl => by simp [hpre l hl]),
      List.dropWhile_cons_of_neg (by simp [pyStartsWith_self])]
    show extractFenced (mid ++ modHdr :: (gap ++ "```".data ::
      (body ++ "```".data :: rest))) = _
    unfold extractFenced
    rw [List.dropWhile_append_of_pos (fun l hl => by simp [hmid l hl]),
      List.dropWhile_cons_of_pos (by decide),
      List.dropWhile_append_of_pos (fun l hl => by simp [hgap l hl]),
      List.dropWhile_cons_of_neg (by decide)]
    simp only [List.drop_succ_cons, List.drop_zero]
    rw [List.takeWhile_append_of_pos (fun l hl => by simp [hbody l hl]),
      List.takeWhile_cons_of_neg (by decide),
      List.dropWhile_append_of_pos (fun l hl => by simp [hbody l hl]),
      List.dropWhile_cons_of_neg (by decide)]
    rw [List.append_nil]
  have hMod : sectionMod ("```".data :: rest) = [] := by
    unfold sectionMod
    rw [List.drop_succ_cons, List.drop_zero,
      show List.dropWhile (fun l => !pyStartsWith modHdr l) rest = [] from
        List.dropWhile_eq_nil_iff.mpr (fun l hl => by simp [hrest l hl])]
  have hDesc : sectionDesc (pre ++ origHdr :: (mid ++ modHdr :: (gap ++ "```".data ::
      (body ++ "```".data :: rest)))) = pyStrip (pyJoin '\n' pre) := by
    unfold sectionDesc
    rw [List.takeWhile_append_of_pos (fun l hl => by simp [hpre l hl]),
      List.takeWhile_cons_of_neg (by simp [pyStartsWith_self]), List.append_nil]
  rw [parseSectionLines, sectionName_hdr n hn_sub hn_strip, hOrig, hMod, hDesc]
  rw [if_neg (by simp [hn_ne]), if_pos (by simp [hn_ne, hbody_ne])]

/-- C10 (witness): the fence-scan theorem at a concrete section whose
original-code sub-header is directly followed by the modified-code
sub-header and its fenced block `mod`: the parsed record carries
`original_code = "mod"` and an empty `modified_code`. -/
theorem c10_orig_scan_witness :
    parseSectionLines "T".data (("## ".data ++ "A".data) ::
        (["d".data] ++ origHdr :: ([] ++ modHdr :: ([] ++ "```".data ::
          (["mod".data] ++ "```".data :: []))))) =
      some (mkParsed "T".data "A".data
        (pyStrip (pyJoin '\n' ["d".data])) (pyJoin '\n' ["mod".data]) []) :=
  c10_orig_scan_passes_mod_hdr "T".data "A".data ["d".data] [] [] ["mod".data] []
    (by decide) (by decide) (by decide) (by decide) (by decide) (by decide)
    (by decide) (by decide) (by decide)

/-! ### Claim C3: applier sequential composition (spec-modelled) -/

/-- C3: the applier composes sequentially: appending one rule to the
candidate list applies it to the cumulative output of all prior rules
(replacing every occurrence and recording the name exactly when its
non-empty original code occurs in the current result), and the
two-rule scenario `A : foo → bar` then `B : bar → baz` applied to
`"foo"` yields `"baz"` with applied names `[A, B]`; a single rule
`foo → bar` rewrites every occurrence in `"let foo = foo + 1"`.  The
applier itself is modelled from the design document, which is the only
place this component is specified. -/
theorem c3_applier_sequential_composition :
    (∀ (rules : List RuleDict) (r : RuleDict) (code : Str),
      apply_rules_to_code (rules ++ [r]) code =
        (if !(ruleGet r.original_code).isEmpty &&
            hasSub (ruleGet r.original_code) (apply_rules_to_code rules code).1 then
          (pyReplace (ruleGet r.original_code) (ruleGet r.modified_code)
              (apply_rules_to_code rules code).1,
            (apply_rules_to_code rules code).2 ++ [ruleGet r.name])
        else apply_rules_to_code rules code)) ∧
    apply_rules_to_code
        [{ name := some "A".data, original_code := some "foo".data,
           modified_code := some "bar".data },
         { name := some "B".data, original_code := some "bar".data,
           modified_code := some "baz".data }] "foo".data =
      ("baz".data, ["A".data, "B".data]) ∧
    apply_rules_to_code
        [{ name := some "rename-var".data, original_code := some "foo".data,
           modified_code := some "bar".data }] "let foo = foo + 1".data =
      ("let bar = bar + 1".data, ["rename-var".data]) := by
  refine ⟨?_, by decide, by decide⟩
  intro rules r code
  unfold apply_rules_to_code
  rw [List.foldl_append]
  rfl

end AutoRules
